import Mathlib

/-!
# Verification development for the AI-Resume-Pharser core

This file is a shallow embedding of the two core modules of the repository:

* `app/services/enhanced_parser.py` (the Structuring Engine), and
* `app/services/matching_service.py` (the Relevancy Scoring Engine),

together with theorems settling the frozen claims about them.

Modelling conventions:

* Python strings are modelled as `List Char` (`Str`).  All character
  classes (`\d`, `\s`, `\w`, `str.isdigit`, `str.lower`, …) are modelled by
  their ASCII semantics, which is what all the texts in scope exercise.
* Python regular expressions are modelled by a small first-order regex
  engine (`RE`) with Python's ordered-alternation / greedy-with-backtracking
  semantics: `RE.matches` returns the list of possible match lengths in
  Python's preference order, so the head of the list is the match Python
  picks.  `\b`, `^` and `$` are supported through a threaded
  previous-character argument.
* Python numbers are modelled by `ℚ`; `round(x, n)` is modelled by exact
  round-half-to-even on `ℚ` (`pyRound`).
* The optional NLP backends (spaCy, transformers, sentence-transformers)
  are modelled as unavailable, i.e. the fail-soft fallback path of the
  code, which is the only path the claims exercise; the semantic blend of
  the matcher is modelled by an explicit `Option ℚ` parameter.
* Python `dict` results are modelled by records; a key that is only
  present on some code paths becomes an `Option` field (`none` = key
  absent).
-/

set_option maxRecDepth 40000
set_option linter.unusedVariables false

abbrev Str := List Char

/-- Character data of a string literal. -/
def strL (s : String) : Str := s.data

/-- ASCII lowercasing of one character (`str.lower`). -/
def lowc (c : Char) : Char :=
  if c.isUpper then Char.ofNat (c.toNat + 32) else c

/-- ASCII uppercasing of one character (`str.upper`). -/
def upc (c : Char) : Char :=
  if c.isLower then Char.ofNat (c.toNat - 32) else c

/-- `str.lower` on a whole string (ASCII). -/
def pyLower (s : Str) : Str := s.map lowc

/-- Python `\s` / `str.strip` whitespace (ASCII part). -/
def wsp (c : Char) : Bool :=
  c == ' ' || c == '\t' || c == '\n' || c == '\r' || c == '\x0b' || c == '\x0c'

/-- Python `\w` word character (ASCII part). -/
def wordc (c : Char) : Bool := c.isAlphanum || c == '_'

/-- Drop the longest suffix all of whose characters satisfy `p`. -/
def dropRightWhile (p : Char → Bool) (s : Str) : Str :=
  (s.reverse.dropWhile p).reverse

/-- Python `str.strip()`. -/
def pyStrip (s : Str) : Str := dropRightWhile wsp (s.dropWhile wsp)

/-- Does `pre` start `s`? (Python `str.startswith`.) -/
def pyStarts : Str → Str → Bool
  | [], _ => true
  | _ :: _, [] => false
  | a :: as_, b :: bs => a == b && pyStarts as_ bs

/-- Python substring test `needle in hay`. -/
def pyIn (needle : Str) : Str → Bool
  | [] => pyStarts needle []
  | c :: rest => pyStarts needle (c :: rest) || pyIn needle rest

/-- Python `str.split(sep)` for a one-character separator (keeps empty parts). -/
def pySplitCh (sep : Char) : Str → List Str
  | [] => [[]]
  | c :: rest =>
    let r := pySplitCh sep rest
    if c == sep then [] :: r
    else
      match r with
      | h :: t => (c :: h) :: t
      | [] => [[c]]

/-- `text.split('\n')`. -/
def splitLines (s : Str) : List Str := pySplitCh '\n' s

/-- Truthiness of a Python optional string: `None` and `""` are falsy. -/
def truthyS (o : Option Str) : Bool := o.any (fun s => !s.isEmpty)

/-! ## Character classes -/

/-- First-order character classes, so that semantic facts about a class
(`only digits`, `no whitespace`) are decidable by structural recursion. -/
inductive CC : Type where
  | digit : CC
  | space : CC
  | ualpha : CC
  | lalpha : CC
  | nonNl : CC
  | ch : Char → CC
  | oneOf : List Char → CC
  | union : CC → CC → CC

def CC.test : CC → Char → Bool
  | .digit, c => c.isDigit
  | .space, c => wsp c
  | .ualpha, c => c.isUpper
  | .lalpha, c => c.isLower
  | .nonNl, c => !(c == '\n')
  | .ch a, c => c == a
  | .oneOf s, c => s.contains c
  | .union a b, c => a.test c || b.test c

/-- A class matching `c` case-insensitively. -/
def chCI (c : Char) : CC := CC.oneOf [lowc c, upc c]

/-- `[A-Za-z]`. -/
def ccAlpha : CC := CC.union CC.ualpha CC.lalpha

/-- Every character of the class is a (ASCII) digit. -/
def CC.allDigit : CC → Bool
  | .digit => true
  | .oneOf s => s.all Char.isDigit
  | .ch c => c.isDigit
  | .union a b => a.allDigit && b.allDigit
  | _ => false

/-- No character of the class is whitespace. -/
def CC.noSpace : CC → Bool
  | .digit => true
  | .space => false
  | .ualpha => true
  | .lalpha => true
  | .nonNl => false
  | .ch c => !wsp c
  | .oneOf s => s.all (fun c => !wsp c)
  | .union a b => a.noSpace && b.noSpace

/-! ## The regex engine -/

/-- Regexes, in the fragment the two Python modules use: character-class
atoms, concatenation, ordered alternation, greedy option, greedy bounded or
unbounded repetition of a class, word boundary `\b`, `^` and `$`. -/
inductive RE : Type where
  | eps : RE
  | cls : CC → RE
  | seq : RE → RE → RE
  | alt : RE → RE → RE
  | opt : RE → RE
  | rep : CC → Nat → Option Nat → RE
  | wb : RE
  | bos : RE
  | eos : RE

/-- Concatenation of a list of regexes. -/
def RE.cat (l : List RE) : RE := l.foldr RE.seq RE.eps

/-- Ordered alternation of a non-empty list of regexes (the empty list
yields a never-matching regex). -/
def RE.alts : List RE → RE
  | [] => RE.cls (CC.oneOf [])
  | [r] => r
  | r :: rest => RE.alt r (RE.alts rest)

/-- A literal string. -/
def RE.lit (s : Str) : RE := RE.cat (s.map fun c => RE.cls (CC.ch c))

/-- A literal string matched case-insensitively (`re.IGNORECASE`). -/
def RE.litCI (s : Str) : RE := RE.cat (s.map fun c => RE.cls (chCI c))

/-- Word-character status of an optional character (`none` = outside the
text, which counts as a non-word position for `\b`). -/
def isWordOpt : Option Char → Bool
  | none => false
  | some c => wordc c

/-- The character occupying the position just before `cs.drop n`, given
that the character before `cs` itself is `prev`. -/
def lastChar (prev : Option Char) (cs : Str) (n : Nat) : Option Char :=
  if n = 0 then prev else (cs.take n).getLast?

/-- All ways `r` can match a prefix of `cs`, as consumed lengths in
Python's preference order (greedy, ordered alternation, backtracking).
`prev` is the character just before `cs` in the overall subject text. -/
def RE.matches : RE → Option Char → Str → List Nat
  | .eps, _, _ => [0]
  | .cls _, _, [] => []
  | .cls k, _, c :: _ => if k.test c then [1] else []
  | .seq a b, prev, cs =>
    (a.matches prev cs).flatMap fun n =>
      (b.matches (lastChar prev cs n) (cs.drop n)).map (n + ·)
  | .alt a b, prev, cs => a.matches prev cs ++ b.matches prev cs
  | .opt a, prev, cs => a.matches prev cs ++ [0]
  | .rep k lo hi, _, cs =>
    let m := (cs.takeWhile k.test).length
    let top := match hi with
      | none => m
      | some h => min m h
    if top < lo then [] else (List.range (top + 1 - lo)).map (fun i => top - i)
  | .wb, prev, cs => if isWordOpt prev != isWordOpt cs.head? then [0] else []
  | .bos, prev, _ => if prev.isNone then [0] else []
  | .eos, _, cs => if cs.isEmpty || cs == ['\n'] then [0] else []

/-- All ways `seq a b` can match, exposing the two consumed lengths (used
to model a capturing group): same preference order as `RE.matches (seq a b)`. -/
def matches2 (a b : RE) (prev : Option Char) (cs : Str) : List (Nat × Nat) :=
  (a.matches prev cs).flatMap fun n =>
    (b.matches (lastChar prev cs n) (cs.drop n)).map fun m => (n, m)

/-- Like `matches2` for three groups. -/
def matches3 (a b c : RE) (prev : Option Char) (cs : Str) :
    List (Nat × Nat × Nat) :=
  (a.matches prev cs).flatMap fun n =>
    (matches2 b c (lastChar prev cs n) (cs.drop n)).map fun p =>
      (n, p.1, p.2)

/-- Leftmost match of `r` in `prev`-prefixed `cs`; returns
`(start index relative to the original call, length)`.  `i` is the index of
`cs`'s head in the subject. -/
def searchFrom (r : RE) : Option Char → Str → Nat → Option (Nat × Nat)
  | prev, [], i => ((r.matches prev []).head?).map fun n => (i, n)
  | prev, c :: rest, i =>
    match (r.matches prev (c :: rest)).head? with
    | some n => some (i, n)
    | none => searchFrom r (some c) rest (i + 1)

/-- `re.search`: leftmost match `(start, length)` in `text`. -/
def reSearch (r : RE) (text : Str) : Option (Nat × Nat) :=
  searchFrom r none text 0

/-- Leftmost match exposing the split of a two-part pattern (one capturing
group): `(start, length of part 1, length of part 2)`. -/
def searchFrom2 (a b : RE) : Option Char → Str → Nat → Option (Nat × Nat × Nat)
  | prev, [], i => ((matches2 a b prev []).head?).map fun p => (i, p.1, p.2)
  | prev, c :: rest, i =>
    match (matches2 a b prev (c :: rest)).head? with
    | some p => some (i, p.1, p.2)
    | none => searchFrom2 a b (some c) rest (i + 1)

def reSearch2 (a b : RE) (text : Str) : Option (Nat × Nat × Nat) :=
  searchFrom2 a b none text 0

/-- Leftmost match exposing a three-part split. -/
def searchFrom3 (a b c : RE) : Option Char → Str → Nat → Option (Nat × Nat × Nat × Nat)
  | prev, [], i => ((matches3 a b c prev []).head?).map fun p => (i, p)
  | prev, d :: rest, i =>
    match (matches3 a b c prev (d :: rest)).head? with
    | some p => some (i, p)
    | none => searchFrom3 a b c (some d) rest (i + 1)

def reSearch3 (a b c : RE) (text : Str) : Option (Nat × Nat × Nat × Nat) :=
  searchFrom3 a b c none text 0

/-- Auxiliary loop of `re.finditer`: repeated leftmost non-overlapping
matches, advancing by at least one position each round; `fuel` bounds the
number of matches (a fresh call uses `length + 1`, which is enough since
every round consumes at least one position). -/
def finditerAux (r : RE) : Nat → Option Char → Str → Nat → List (Nat × Nat)
  | 0, _, _, _ => []
  | fuel + 1, prev, cs, i =>
    match searchFrom r prev cs i with
    | none => []
    | some (j, n) =>
      let adv := (j - i) + max n 1
      (j, n) :: finditerAux r fuel ((cs.take adv).getLast?) (cs.drop adv) (j + max n 1)

/-- `re.finditer`: the list of `(start, length)` of all non-overlapping
leftmost matches. -/
def reFinditer (r : RE) (text : Str) : List (Nat × Nat) :=
  finditerAux r (text.length + 1) none text 0

/-- The text of a `(start, length)` span. -/
def spanText (text : Str) (jn : Nat × Nat) : Str :=
  (text.drop jn.1).take jn.2

/-- `re.match(p, s)` with a pattern that is anchored at both ends:
does `p` (followed by `$`) match at position 0? -/
def reMatchFull (r : RE) (text : Str) : Bool :=
  !((RE.seq r RE.eos).matches none text).isEmpty

/-- `re.split(pattern, s)` for a pattern that is `[…]+` for a class `k`:
split on maximal runs of `k`-characters (keeping empty parts, as Python
does). -/
def pySplitRuns (k : CC) : Str → List Str
  | [] => [[]]
  | c :: rest =>
    let r := pySplitRuns k rest
    if k.test c then
      if rest.head?.any k.test then r else [] :: r
    else
      match r with
      | h :: t => (c :: h) :: t
      | [] => [[c]]

/-- `str.split(sep)` generalized to a class of one-character separators
(keeps empty parts). -/
def pySplitPred (p : Char → Bool) : Str → List Str
  | [] => [[]]
  | c :: rest =>
    let r := pySplitPred p rest
    if p c then [] :: r
    else
      match r with
      | h :: t => (c :: h) :: t
      | [] => [[c]]

/-- Python `str.split()` (no argument): split on whitespace runs,
discarding empty pieces. -/
def pySplitWs (s : Str) : List Str :=
  (pySplitPred wsp s).filter (fun piece => !piece.isEmpty)

/-- Round-half-to-even on `ℚ`, the idealization of Python's `round` (exact
on the decimal values the embedded code produces). -/
def rhe (q : ℚ) : ℤ :=
  if q - ⌊q⌋ < 1/2 then ⌊q⌋
  else if 1/2 < q - ⌊q⌋ then ⌊q⌋ + 1
  else if Even ⌊q⌋ then ⌊q⌋ else ⌊q⌋ + 1

/-- Python `round(x, 1)`. -/
def pyRound1 (q : ℚ) : ℚ := (rhe (q * 10) : ℚ) / 10

/-- Python `round(x, 2)`. -/
def pyRound2 (q : ℚ) : ℚ := (rhe (q * 100) : ℚ) / 100

/-- Interpret a string of decimal digits as a number (Python `int` on the
all-digit strings the year/`\d+` regexes produce). -/
def digitsToNat (s : Str) : Nat := s.foldl (fun a c => a * 10 + (c.toNat - 48)) 0

/-! ## A second regex layer with an unbounded star

Two of the job-title patterns contain `(?:\s+[A-Z][a-z]+)*`, a greedy star
of a composite (never-empty) group.  `RE2` adds that construct on top of
`RE`; `starMatchesAux` unrolls the star with the subject length as fuel,
which is exact because the starred groups in scope always consume at least
one character (length-zero iterations are discarded, as Python also stops
a star on an empty iteration). -/

def starMatchesAux (a : RE) : Nat → Option Char → Str → List Nat
  | 0, _, _ => [0]
  | fuel + 1, prev, cs =>
    ((a.matches prev cs).filter (· != 0)).flatMap
      (fun n => (starMatchesAux a fuel (lastChar prev cs n) (cs.drop n)).map (n + ·))
    ++ [0]

inductive RE2 : Type where
  | base : RE → RE2
  | seq : RE2 → RE2 → RE2
  | star : RE → RE2

def RE2.matches : RE2 → Option Char → Str → List Nat
  | .base r, prev, cs => r.matches prev cs
  | .seq a b, prev, cs =>
    (a.matches prev cs).flatMap fun n =>
      (b.matches (lastChar prev cs n) (cs.drop n)).map (n + ·)
  | .star a, prev, cs => starMatchesAux a cs.length prev cs

def searchFromR2 (r : RE2) : Option Char → Str → Nat → Option (Nat × Nat)
  | prev, [], i => ((r.matches prev []).head?).map fun n => (i, n)
  | prev, c :: rest, i =>
    match (r.matches prev (c :: rest)).head? with
    | some n => some (i, n)
    | none => searchFromR2 r (some c) rest (i + 1)

def reSearchR2 (r : RE2) (text : Str) : Option (Nat × Nat) :=
  searchFromR2 r none text 0

/-! ## Data model (§3 StructuredProfile) -/

structure PersonalInfo where
  full_name : Option Str
  email : Option Str
  phone : Option Str
  location : Option Str
  linkedin : Option Str
  github : Option Str
deriving DecidableEq

structure ExpEntry where
  title : Str := []
  company : Option Str := none
  start_date : Option Str := none
  end_date : Option Str := none
  description : Str := []
  achievements : List Str := []
  technologies : List Str := []
deriving DecidableEq

structure EduEntry where
  degree : Str := []
  institution : Option Str := none
  year : Option Str := none
  field : Option Str := none
  gpa : Option Str := none
  honors : List Str := []
deriving DecidableEq

/-- The seven extracted fields of `parsed_data` before the confidence score
is attached. -/
structure PreData where
  personal_info : PersonalInfo
  experience : List ExpEntry
  education : List EduEntry
  skills : List Str
  summary : Option Str
  certifications : List Str
  languages : List Str
deriving DecidableEq

/-- The full `parsed_data` dictionary returned by `EnhancedParser.parse`. -/
structure ParsedData extends PreData where
  confidence_score : ℚ
deriving DecidableEq

/-! ## The Structuring Engine: `EnhancedParser` -/

namespace EnhancedParser

/-- `re.sub(r'[ \t]+', ' ', line)`. -/
def blankc (c : Char) : Bool := c == ' ' || c == '\t'

def collapseBlanks : Str → Str
  | [] => []
  | c :: rest =>
    if blankc c then
      if rest.head?.any blankc then collapseBlanks rest
      else ' ' :: collapseBlanks rest
    else c :: collapseBlanks rest

/-- `re.sub(r'\n{3,}', '\n\n', s)`: every maximal newline run of length
`L` becomes a run of length `min L 2`. -/
def collapseNLAux : Nat → Str → Str
  | _, [] => []
  | seen, c :: rest =>
    if c == '\n' then
      if seen < 2 then '\n' :: collapseNLAux (seen + 1) rest
      else collapseNLAux seen rest
    else c :: collapseNLAux 0 rest

def collapseNewlines (s : Str) : Str := collapseNLAux 0 s

/-- `EnhancedParser._preprocess_text`. -/
def preprocess_text (text : Str) : Str :=
  let cleaned_lines := (splitLines text).filterMap fun line =>
    if line.isEmpty then none
    else
      let line := collapseBlanks (pyStrip line)
      if line.isEmpty then none else some line
  collapseNewlines (List.intercalate ['\n'] cleaned_lines)

/-- `\n\s*[A-Z][A-Z\s]{10,}|\n\s*\d+\.|\n\s*[A-Z]+\s*:` -/
def end_pattern : RE := RE.alts [
  RE.cat [RE.cls (CC.ch '\n'), RE.rep CC.space 0 none, RE.cls CC.ualpha,
          RE.rep (CC.union CC.ualpha CC.space) 10 none],
  RE.cat [RE.cls (CC.ch '\n'), RE.rep CC.space 0 none, RE.rep CC.digit 1 none,
          RE.cls (CC.ch '.')],
  RE.cat [RE.cls (CC.ch '\n'), RE.rep CC.space 0 none, RE.rep CC.ualpha 1 none,
          RE.rep CC.space 0 none, RE.cls (CC.ch ':')]]

/-- `EnhancedParser._find_section`. -/
def find_section (text : Str) (keywords : List Str) : Option Str :=
  if text.isEmpty then none
  else
    let text_lower := pyLower text
    keywords.findSome? fun keyword =>
      if keyword.isEmpty then none
      else
        match reSearch (RE.cat [RE.wb, RE.litCI keyword, RE.wb]) text_lower with
        | none => none
        | some (j, n) =>
          let start_idx := j + n
          match reSearch end_pattern (text.drop start_idx) with
          | some em => some ((text.drop start_idx).take em.1)
          | none => some ((text.drop start_idx).take 2000)

/-- `\b[A-Za-z0-9._%+-]+@[A-Za-z0-9.-]+\.[A-Z|a-z]{2,}\b` (note: the
source's trailing class is literally `[A-Z|a-z]`, which also contains `|`). -/
def email_pattern : RE :=
  RE.cat [RE.wb,
    RE.rep (CC.union ccAlpha (CC.union CC.digit (CC.oneOf ['.', '_', '%', '+', '-']))) 1 none,
    RE.cls (CC.ch '@'),
    RE.rep (CC.union ccAlpha (CC.union CC.digit (CC.oneOf ['.', '-']))) 1 none,
    RE.cls (CC.ch '.'),
    RE.rep (CC.union ccAlpha (CC.ch '|')) 2 none,
    RE.wb]

/-- `[-.\s]` -/
def sepCC : CC := CC.union (CC.oneOf ['-', '.']) CC.space

/-- `\+?\d{1,3}[-.\s]?\(?\d{3}\)?[-.\s]?\d{3}[-.\s]?\d{4}` -/
def phone_pattern1 : RE :=
  RE.cat [RE.opt (RE.cls (CC.ch '+')), RE.rep CC.digit 1 (some 3),
    RE.opt (RE.cls sepCC), RE.opt (RE.cls (CC.ch '(')), RE.rep CC.digit 3 (some 3),
    RE.opt (RE.cls (CC.ch ')')), RE.opt (RE.cls sepCC), RE.rep CC.digit 3 (some 3),
    RE.opt (RE.cls sepCC), RE.rep CC.digit 4 (some 4)]

/-- `\+?\d{1,3}[-.\s]?\d{3}[-.\s]?\d{3}[-.\s]?\d{4}` -/
def phone_pattern2 : RE :=
  RE.cat [RE.opt (RE.cls (CC.ch '+')), RE.rep CC.digit 1 (some 3),
    RE.opt (RE.cls sepCC), RE.rep CC.digit 3 (some 3),
    RE.opt (RE.cls sepCC), RE.rep CC.digit 3 (some 3),
    RE.opt (RE.cls sepCC), RE.rep CC.digit 4 (some 4)]

/-- `\(\d{3}\)\s?\d{3}[-.\s]?\d{4}` -/
def phone_pattern3 : RE :=
  RE.cat [RE.cls (CC.ch '('), RE.rep CC.digit 3 (some 3), RE.cls (CC.ch ')'),
    RE.opt (RE.cls CC.space), RE.rep CC.digit 3 (some 3),
    RE.opt (RE.cls sepCC), RE.rep CC.digit 4 (some 4)]

/-- `\b\d{10}\b` -/
def phone_pattern4 : RE := RE.cat [RE.wb, RE.rep CC.digit 10 (some 10), RE.wb]

def phone_patterns : List RE :=
  [phone_pattern1, phone_pattern2, phone_pattern3, phone_pattern4]

/-- The acceptance test applied to one candidate phone match: 10 characters
after strip, not starting with `19`/`20`, and not directly preceded or
followed by a digit in the source text. -/
def phoneCandOk (original_text : Str) (jn : Nat × Nat) : Bool :=
  let phone_str := pyStrip (spanText original_text jn)
  phone_str.length == 10 &&
  !(pyStarts (strL "19") phone_str || pyStarts (strL "20") phone_str) &&
  (let before := match jn.1 with
     | 0 => none
     | j + 1 => original_text.get? j
   let after := original_text.get? (jn.1 + jn.2)
   !(before.any Char.isDigit || after.any Char.isDigit))

/-- Strategy 2 of `_extract_personal_info_enhanced`: the first candidate
of the first pattern (in priority order) that passes `phoneCandOk`. -/
def extract_phone (original_text : Str) : Option Str :=
  phone_patterns.findSome? fun pat =>
    ((reFinditer pat original_text).find? (phoneCandOk original_text)).map
      fun jn => pyStrip (spanText original_text jn)

/-- Group 1 of `^([A-Z][a-z]+(?:\s+[A-Z][a-z]+){1,3})(?:\s|$|[,\n])`;
the greedy `{1,3}` is unrolled as `X(X(X)?)?`. -/
def nameWordRE : RE :=
  RE.cat [RE.rep CC.space 1 none, RE.cls CC.ualpha, RE.rep CC.lalpha 1 none]

def nameG1 : RE :=
  RE.cat [RE.cls CC.ualpha, RE.rep CC.lalpha 1 none,
    nameWordRE, RE.opt (RE.seq nameWordRE (RE.opt nameWordRE))]

def nameTail : RE := RE.alts [RE.cls CC.space, RE.eos, RE.cls (CC.oneOf [',', '\n'])]

/-- Strategy 3 of `_extract_personal_info_enhanced`.  The spaCy and
transformer NER strategies are unavailable in the modelled environment, so
the candidate pool holds at most the regex-fallback candidate, and the
sort-and-pick-first step selects it when present. -/
def extract_name (cleaned_text : Str) : Option Str :=
  let first_line := ((splitLines cleaned_text).headD [])
  if first_line.isEmpty then none
  else
    match reSearch2 (RE.seq RE.bos nameG1) nameTail first_line with
    | none => none
    | some r =>
      let name_text := pyStrip ((first_line.drop r.1).take r.2.1)
      if !name_text.isEmpty &&
         !((["inc", "llc", "corp", "company", "engineer", "manager"].map strL).any
            fun word => pyIn word (pyLower name_text)) then
        some name_text
      else none

def handleCC : CC := CC.union ccAlpha (CC.union CC.digit (CC.ch '-'))

/-- `(?:linkedin\.com/in/|linkedin\.com/pub/)([a-zA-Z0-9-]+)`, `re.IGNORECASE`. -/
def extract_linkedin (original_text : Str) : Option Str :=
  (reSearch2
      (RE.alt (RE.litCI (strL "linkedin.com/in/")) (RE.litCI (strL "linkedin.com/pub/")))
      (RE.rep handleCC 1 none) original_text).map
    fun r => strL "linkedin.com/in/" ++ (original_text.drop (r.1 + r.2.1)).take r.2.2

/-- `(?:github\.com/)([a-zA-Z0-9-]+)`, `re.IGNORECASE`. -/
def extract_github (original_text : Str) : Option Str :=
  (reSearch2 (RE.litCI (strL "github.com/")) (RE.rep handleCC 1 none) original_text).map
    fun r => strL "github.com/" ++ (original_text.drop (r.1 + r.2.1)).take r.2.2

/-- `EnhancedParser._extract_personal_info_enhanced`.  Location relies
solely on spaCy geographic NER, which is unavailable in the modelled
environment, so it stays `None`. -/
def extract_personal_info_enhanced (cleaned_text original_text : Str) : PersonalInfo :=
  { email := (reSearch email_pattern original_text).map (spanText original_text)
    phone := extract_phone original_text
    full_name := extract_name cleaned_text
    location := none
    linkedin := extract_linkedin original_text
    github := extract_github original_text }

end EnhancedParser

namespace EnhancedParser

def monthCI : RE := RE.alts
  ((["Jan", "Feb", "Mar", "Apr", "May", "Jun", "Jul", "Aug", "Sep", "Oct", "Nov",
     "Dec"].map strL).map RE.litCI)

/-- The four `date_patterns` (all searched with `re.IGNORECASE`, so `[a-z]`
reads as any letter). -/
def date_pattern1 : RE :=
  RE.cat [RE.wb, monthCI, RE.rep ccAlpha 0 none, RE.rep CC.space 1 none,
    RE.rep CC.digit 4 (some 4), RE.wb]

def date_pattern2 : RE :=
  RE.cat [RE.wb, RE.rep CC.digit 1 (some 2), RE.cls (CC.oneOf ['/', '-']),
    RE.rep CC.digit 4 (some 4), RE.wb]

def date_pattern3 : RE :=
  RE.cat [RE.wb, RE.alt (RE.lit (strL "19")) (RE.lit (strL "20")),
    RE.rep CC.digit 2 (some 2), RE.wb]

def date_pattern4 : RE :=
  RE.alts [RE.litCI (strL "Present"), RE.litCI (strL "Current"), RE.litCI (strL "Now")]

def date_patterns : List RE := [date_pattern1, date_pattern2, date_pattern3, date_pattern4]

/-- `\b(?:Jan|…)[a-z]*\s+\d{4}\b.*\b(?:Engineer|…|Supervisor)\b` -/
def date_title_pattern : RE :=
  RE.cat [RE.wb, monthCI, RE.rep ccAlpha 0 none, RE.rep CC.space 1 none,
    RE.rep CC.digit 4 (some 4), RE.wb, RE.rep CC.nonNl 0 none, RE.wb,
    RE.alts ((["Engineer", "Developer", "Manager", "Analyst", "Specialist",
      "Associate", "Coordinator", "Supervisor"].map strL).map RE.litCI), RE.wb]

def altsCI (l : List String) : RE := RE.alts ((l.map strL).map RE.litCI)

/-- The seven `title_patterns` (searched with `re.IGNORECASE`, so `[A-Z]`
and `[a-z]` both read as any letter). -/
def title_pattern1 : RE :=
  RE.cat [RE.wb,
    altsCI ["Senior", "Junior", "Lead", "Principal", "Staff", "Associate", "Manager",
      "Director", "VP", "CEO", "CTO", "CFO", "Executive", "Head", "Chief"],
    RE.rep CC.space 1 none, RE.rep (CC.union ccAlpha CC.space) 1 none]

def title_pattern2 : RE :=
  RE.cat [RE.wb, RE.cls ccAlpha, RE.rep ccAlpha 1 none, RE.rep CC.space 1 none,
    altsCI ["Engineer", "Developer", "Manager", "Analyst", "Specialist", "Architect",
      "Consultant", "Coordinator", "Supervisor", "Representative", "Assistant", "Clerk"]]

def title_pattern3 : RE :=
  RE.cat [RE.wb,
    RE.alts [RE.litCI (strL "Software"), RE.litCI (strL "Data"), RE.litCI (strL "Product"),
      RE.litCI (strL "DevOps"), RE.litCI (strL "Backend"), RE.litCI (strL "Frontend"),
      RE.cat [RE.litCI (strL "Full"), RE.opt (RE.cls CC.nonNl), RE.litCI (strL "Stack")],
      RE.litCI (strL "Mobile"), RE.litCI (strL "QA"), RE.litCI (strL "Test"),
      RE.litCI (strL "Systems"), RE.litCI (strL "Security"), RE.litCI (strL "Sales"),
      RE.litCI (strL "Customer"), RE.litCI (strL "Marketing"), RE.litCI (strL "Operations")],
    RE.rep CC.space 1 none,
    altsCI ["Engineer", "Developer", "Architect", "Manager", "Analyst", "Specialist",
      "Representative"]]

def title_pattern4 : RE :=
  RE.cat [RE.wb,
    RE.opt (altsCI ["Warehouse", "Logistics", "Supply Chain", "Operations",
      "Distribution", "Retail", "Amazon", "Fulfillment", "Delivery", "Shipping"]),
    RE.rep CC.space 0 none,
    altsCI ["Associate", "Specialist", "Coordinator", "Supervisor", "Manager",
      "Worker", "Operator", "Technician", "Clerk"]]

def title_pattern5 : RE :=
  RE.cat [RE.wb, RE.cls ccAlpha, RE.rep ccAlpha 1 none, RE.rep CC.space 1 none,
    RE.alt (RE.litCI (strL "at")) (RE.lit (strL "@")), RE.rep CC.space 1 none,
    RE.cls ccAlpha]

/-- `(?:\s+[A-Z][a-z]+)` under `re.IGNORECASE`. -/
def capWordRE : RE :=
  RE.cat [RE.rep CC.space 1 none, RE.cls ccAlpha, RE.rep ccAlpha 1 none]

/-- `^\s*[A-Z][a-z]+(?:\s+[A-Z][a-z]+)*\s*-\s*[A-Z]` -/
def title_pattern6 : RE2 :=
  RE2.seq (RE2.base (RE.cat [RE.bos, RE.rep CC.space 0 none, RE.cls ccAlpha,
      RE.rep ccAlpha 1 none]))
    (RE2.seq (RE2.star capWordRE)
      (RE2.base (RE.cat [RE.rep CC.space 0 none, RE.cls (CC.ch '-'),
        RE.rep CC.space 0 none, RE.cls ccAlpha])))

/-- `^\s*[A-Z][a-z]+(?:\s+[A-Z][a-z]+)*\s*,\s*[A-Z]` -/
def title_pattern7 : RE2 :=
  RE2.seq (RE2.base (RE.cat [RE.bos, RE.rep CC.space 0 none, RE.cls ccAlpha,
      RE.rep ccAlpha 1 none]))
    (RE2.seq (RE2.star capWordRE)
      (RE2.base (RE.cat [RE.rep CC.space 0 none, RE.cls (CC.ch ','),
        RE.rep CC.space 0 none, RE.cls ccAlpha])))

def title_patterns : List RE2 :=
  [RE2.base title_pattern1, RE2.base title_pattern2, RE2.base title_pattern3,
   RE2.base title_pattern4, RE2.base title_pattern5, title_pattern6, title_pattern7]

/-- `re.sub(r'^(?:at|@)\s+', '', t, flags=re.IGNORECASE)`. -/
def stripAtPre (t : Str) : Str :=
  match reSearch (RE.cat [RE.bos, RE.alt (RE.litCI (strL "at")) (RE.lit (strL "@")),
      RE.rep CC.space 1 none]) t with
  | some (0, n) => t.drop n
  | _ => t

/-- The fresh `current_exp` dictionary opened when a title is found. -/
def newExp (title : Str) : ExpEntry := { title := title }

/-- The standard title-pattern loop: first pattern whose match passes the
cleanup and length checks wins; a pattern that matches but fails the
length check falls through to the next pattern, as in the source. -/
def tryTitlePatterns (line : Str) : Option Str :=
  title_patterns.findSome? fun pat =>
    match reSearchR2 pat line with
    | none => none
    | some jn =>
      let title_text := pyStrip (spanText line jn)
      let title_text := pyStrip (stripAtPre title_text)
      if 5 < title_text.length && title_text.length < 100 then some title_text else none

/-- The `date_title_pattern` branch: the title is the first five
whitespace-split words after the end of the match. -/
def tryDateTitle (line : Str) : Option Str :=
  match reSearch date_title_pattern line with
  | none => none
  | some jn =>
    let title_part := pyStrip (line.drop (jn.1 + jn.2))
    if title_part.isEmpty then none
    else
      let title_text := pyStrip (List.intercalate [' '] ((pySplitWs title_part).take 5))
      if 5 < title_text.length && title_text.length < 100 then some title_text else none

def well_known_companies : List Str :=
  ["Amazon", "Google", "Microsoft", "Apple", "Facebook", "Meta", "IBM", "Oracle",
   "Salesforce", "Adobe", "Intel", "NVIDIA", "Tesla", "Netflix", "Uber", "Airbnb",
   "Twitter", "LinkedIn", "Walmart", "Target", "Costco", "FedEx", "UPS", "DHL"].map strL

/-- `[A-Za-z0-9\s&.,-]` -/
def compCC : CC :=
  CC.union ccAlpha (CC.union CC.digit (CC.union CC.space (CC.oneOf ['&', '.', ',', '-'])))

/-- `^[A-Z][A-Za-z0-9\s&.,-]+(?:Inc|LLC|Ltd|Corp|Corporation|Company|Co|Technologies|Solutions|Systems|Group|Enterprises)?$`
(no `re.IGNORECASE`; the anchors come from `re.match` plus `reMatchFull`'s `$`). -/
def company_pattern : RE :=
  RE.cat [RE.cls CC.ualpha, RE.rep compCC 1 none,
    RE.opt (RE.alts ((["Inc", "LLC", "Ltd", "Corp", "Corporation", "Company", "Co",
      "Technologies", "Solutions", "Systems", "Group", "Enterprises"].map strL).map RE.lit))]

/-- `(?:at|@|-|,)\s+` part of `company_at_pattern` (`re.IGNORECASE`). -/
def company_at_r1 : RE :=
  RE.cat [RE.alts [RE.litCI (strL "at"), RE.lit (strL "@"), RE.lit (strL "-"),
    RE.lit (strL ",")], RE.rep CC.space 1 none]

/-- Group 1 `([A-Z][A-Za-z0-9\s&.,-]+(?:Inc|LLC|Ltd|Corp|Corporation|Company|Co)?)`
of `company_at_pattern` (`re.IGNORECASE`, so `[A-Z]` reads as any letter). -/
def company_at_r2 : RE :=
  RE.cat [RE.cls ccAlpha, RE.rep compCC 1 none,
    RE.opt (RE.alts ((["Inc", "LLC", "Ltd", "Corp", "Corporation", "Company",
      "Co"].map strL).map RE.litCI))]

end EnhancedParser

namespace EnhancedParser

/-- The company block of the experience line walk (`orgs` from spaCy is
empty in the modelled environment, so the well-known list is the first
strategy that can fire). -/
def companyUpdate (e : ExpEntry) (line : Str) : ExpEntry :=
  if truthyS e.company then e
  else
    match well_known_companies.findSome? (fun company =>
        if pyIn (pyLower company) (pyLower line) then
          if (reSearch (RE.cat [RE.wb, RE.litCI company, RE.wb]) line).isSome
          then some company else none
        else none) with
    | some c => { e with company := some c }
    | none =>
      if reMatchFull company_pattern line && line.length > 3 && line.length < 100 &&
         (reSearch (RE.rep CC.digit 4 (some 4)) line).isNone &&
         !((["engineer", "developer", "manager", "associate"].map strL).any
            fun w => pyIn w (pyLower line)) then
        { e with company := some line }
      else
        match reSearch2 company_at_r1 company_at_r2 line with
        | some r =>
          let company_text := pyStrip ((line.drop (r.1 + r.2.1)).take r.2.2)
          if 3 < company_text.length && company_text.length < 100 then
            { e with company := some company_text }
          else e
        | none => e

/-- The `date_patterns` loop of the experience line walk. -/
def datesUpdate (e : ExpEntry) (line : Str) : ExpEntry :=
  match date_patterns.findSome? (fun pat =>
      let ds := (reFinditer pat line).map (spanText line)
      if ds.isEmpty then none else some ds) with
  | none => e
  | some ds =>
    let e := if !truthyS e.start_date then { e with start_date := ds.head? } else e
    if ds.length > 1 then { e with end_date := ds.get? 1 }
    else if pyIn (strL "present") (pyLower line) || pyIn (strL "current") (pyLower line)
         || pyIn (strL "now") (pyLower line) then
      { e with end_date := some (strL "Present") }
    else e

/-- Group 1 of `date_range_pattern`:
`(\b(?:Jan|…)[a-z]*\s+\d{4}|\d{1,2}[slash-or-dash]\d{4})` (`re.IGNORECASE`). -/
def date_range_g1 : RE :=
  RE.alt (RE.cat [RE.wb, monthCI, RE.rep ccAlpha 0 none, RE.rep CC.space 1 none,
      RE.rep CC.digit 4 (some 4)])
    (RE.cat [RE.rep CC.digit 1 (some 2), RE.cls (CC.oneOf ['/', '-']),
      RE.rep CC.digit 4 (some 4)])

/-- The middle `\s*[-–—]\s*` of `date_range_pattern`. -/
def date_range_mid : RE :=
  RE.cat [RE.rep CC.space 0 none, RE.cls (CC.oneOf ['-', '–', '—']),
    RE.rep CC.space 0 none]

/-- Group 2 of `date_range_pattern`. -/
def date_range_g2 : RE :=
  RE.alts [RE.cat [RE.wb, monthCI, RE.rep ccAlpha 0 none, RE.rep CC.space 1 none,
      RE.rep CC.digit 4 (some 4)],
    RE.cat [RE.rep CC.digit 1 (some 2), RE.cls (CC.oneOf ['/', '-']),
      RE.rep CC.digit 4 (some 4)],
    RE.litCI (strL "Present"), RE.litCI (strL "Current"), RE.litCI (strL "Now")]

def dateRangeUpdate (e : ExpEntry) (line : Str) : ExpEntry :=
  match reSearch3 date_range_g1 date_range_mid date_range_g2 line with
  | none => e
  | some (j, n1, nm, n2) =>
    let e :=
      if !truthyS e.start_date then
        let g := (line.drop j).take n1
        if !g.isEmpty then { e with start_date := some (pyStrip g) } else e
      else e
    let g2 := (line.drop (j + n1 + nm)).take n2
    if !g2.isEmpty then
      let end_date := pyStrip g2
      if !end_date.isEmpty &&
         ([strL "present", strL "current", strL "now"].contains (pyLower end_date)) then
        { e with end_date := some (strL "Present") }
      else if !end_date.isEmpty then { e with end_date := some end_date }
      else e
    else e

/-- `^[\d\s\/\-–—]+$` (via `re.match`). -/
def dateOnlyRE : RE :=
  RE.rep (CC.union CC.digit (CC.union CC.space (CC.oneOf ['/', '-', '–', '—']))) 1 none

/-- `^[A-Z][A-Za-z\s&.,-]+(?:Inc|LLC|Ltd|Corp)?$` (via `re.match`, no
`re.IGNORECASE`). -/
def companyLikeRE : RE :=
  RE.cat [RE.cls CC.ualpha,
    RE.rep (CC.union ccAlpha (CC.union CC.space (CC.oneOf ['&', '.', ',', '-']))) 1 none,
    RE.opt (RE.alts ((["Inc", "LLC", "Ltd", "Corp"].map strL).map RE.lit))]

def descriptionUpdate (e : ExpEntry) (line : Str) : ExpEntry :=
  if !reMatchFull dateOnlyRE line then
    if !e.description.isEmpty then
      if !pyIn line e.description then
        { e with description := e.description ++ '\n' :: line }
      else e
    else
      if !reMatchFull companyLikeRE line || line.length > 20 then
        { e with description := line }
      else e
  else e

/-- One iteration of the experience line walk. -/
def expStep (st : List ExpEntry × Option ExpEntry) (line0 : Str) :
    List ExpEntry × Option ExpEntry :=
  if line0.isEmpty then st
  else
    let line := pyStrip line0
    if line.isEmpty || line.length < 5 then
      match st.2 with
      | some e => if !e.title.isEmpty then (st.1 ++ [e], none) else st
      | none => st
    else
      let line := if line.length > 500 then line.take 500 else line
      match tryDateTitle line <|> tryTitlePatterns line with
      | some t =>
        let acc := match st.2 with
          | some e => if !e.title.isEmpty then st.1 ++ [e] else st.1
          | none => st.1
        (acc, some (newExp t))
      | none =>
        match st.2 with
        | none => st
        | some e =>
          let e := companyUpdate e line
          let e := datesUpdate e line
          let e := dateRangeUpdate e line
          let e := descriptionUpdate e line
          (st.1, some e)

def exp_keywords : List Str :=
  ["experience", "work history", "employment history", "employment",
   "professional experience", "career", "work experience", "professional background",
   "employment background", "work background", "career history",
   "professional history"].map strL

/-- `EnhancedParser._extract_experience_enhanced`. -/
def extract_experience_enhanced (cleaned_text original_text : Str) : List ExpEntry :=
  let exp_section := (find_section cleaned_text exp_keywords).getD cleaned_text
  let st := (splitLines exp_section).foldl expStep ([], none)
  match st.2 with
  | some e => if !e.title.isEmpty then st.1 ++ [e] else st.1
  | none => st.1

end EnhancedParser

namespace EnhancedParser

def edu_keywords : List Str :=
  ["education", "academic", "qualification", "degree", "university", "college"].map strL

/-- `\b(?:Bachelor|Master|PhD|Doctorate|Associate|Diploma|Certificate)\s+(?:of|in)?\s+[A-Za-z\s&]+`
(`re.IGNORECASE`). -/
def degree_pattern1 : RE :=
  RE.cat [RE.wb,
    altsCI ["Bachelor", "Master", "PhD", "Doctorate", "Associate", "Diploma",
      "Certificate"],
    RE.rep CC.space 1 none,
    RE.opt (RE.alt (RE.litCI (strL "of")) (RE.litCI (strL "in"))),
    RE.rep CC.space 1 none,
    RE.rep (CC.union ccAlpha (CC.union CC.space (CC.ch '&'))) 1 none]

/-- One abbreviation like `B\.?S\.?` (`re.IGNORECASE`). -/
def abbrevRE (a b : String) : RE :=
  RE.cat [RE.litCI (strL a), RE.opt (RE.lit (strL ".")), RE.litCI (strL b),
    RE.opt (RE.lit (strL "."))]

/-- `\b(?:B\.?S\.?|M\.?S\.?|B\.?A\.?|M\.?A\.?|Ph\.?D\.?|MBA|B\.?E\.?|M\.?E\.?)\b` -/
def degree_pattern2 : RE :=
  RE.cat [RE.wb,
    RE.alts [abbrevRE "B" "S", abbrevRE "M" "S", abbrevRE "B" "A", abbrevRE "M" "A",
      abbrevRE "Ph" "D", RE.litCI (strL "MBA"), abbrevRE "B" "E", abbrevRE "M" "E"],
    RE.wb]

def degree_patterns : List RE := [degree_pattern1, degree_pattern2]

/-- Group 1 of `\b([A-Z][A-Za-z\s&]+(?:University|College|Institute|School|Academy))\b`
(no `re.IGNORECASE`). -/
def institution_g1 : RE :=
  RE.cat [RE.cls CC.ualpha,
    RE.rep (CC.union ccAlpha (CC.union CC.space (CC.ch '&'))) 1 none,
    RE.alts ((["University", "College", "Institute", "School",
      "Academy"].map strL).map RE.lit)]

/-- `\b(19|20)\d{2}\b` used with `.group()` (the whole match). -/
def yearRE : RE :=
  RE.cat [RE.wb, RE.alt (RE.lit (strL "19")) (RE.lit (strL "20")),
    RE.rep CC.digit 2 (some 2), RE.wb]

/-- `\bGPA[:\s]*` part of the GPA pattern (`re.IGNORECASE`). -/
def gpa_r1 : RE :=
  RE.cat [RE.wb, RE.litCI (strL "GPA"), RE.rep (CC.union (CC.ch ':') CC.space) 0 none]

/-- Group 1 `(\d+\.?\d*)` of the GPA pattern. -/
def gpa_g1 : RE :=
  RE.cat [RE.rep CC.digit 1 none, RE.opt (RE.lit (strL ".")), RE.rep CC.digit 0 none]

/-- The institution fallback word walk: collect words from the first word
containing a school keyword onward, stopping once the joined text exceeds
100 characters. -/
def instCollect : List Str → Bool → List Str → List Str
  | [], _, acc => acc
  | word :: rest, found, acc =>
    let found := found ||
      (!word.isEmpty &&
        (["university", "college", "institute", "school"].map strL).any
          fun kw => pyIn kw (pyLower word))
    if found then
      let acc := acc ++ [word]
      if (List.intercalate [' '] acc).length > 100 then acc
      else instCollect rest found acc
    else instCollect rest found acc

def institutionUpdate (e : EduEntry) (line : Str) : EduEntry :=
  if truthyS e.institution then e
  else
    match reSearch2 (RE.seq RE.wb institution_g1) RE.wb line with
    | some r =>
      let inst_text := pyStrip ((line.drop r.1).take r.2.1)
      if inst_text.length ≤ 100 then { e with institution := some inst_text } else e
    | none =>
      if (["university", "college", "institute", "school"].map strL).any
          (fun w => pyIn w (pyLower line)) then
        let inst_words := instCollect (pySplitWs line) false []
        if !inst_words.isEmpty then
          { e with institution := some (pyStrip (List.intercalate [' '] (inst_words.take 8))) }
        else e
      else e

def eduFieldsUpdate (e : EduEntry) (line : Str) : EduEntry :=
  let e := institutionUpdate e line
  let e :=
    match reSearch yearRE line with
    | some jn => if !truthyS e.year then { e with year := some (spanText line jn) } else e
    | none => e
  match reSearch3 gpa_r1 gpa_g1 RE.wb line with
  | some (j, n1, n2, _) => { e with gpa := some ((line.drop (j + n1)).take n2) }
  | none => e

/-- One iteration of the education line walk. -/
def eduStep (st : List EduEntry × Option EduEntry) (line0 : Str) :
    List EduEntry × Option EduEntry :=
  if line0.isEmpty then st
  else
    let line := pyStrip line0
    if line.isEmpty || line.length < 5 then
      match st.2 with
      | some e => if !e.degree.isEmpty then (st.1 ++ [e], none) else st
      | none => st
    else
      let line := if line.length > 300 then line.take 300 else line
      let st :=
        match degree_patterns.findSome? (fun pat => reSearch pat line) with
        | some jn =>
          let degree_text := pyStrip (spanText line jn)
          let degree_text := if degree_text.length > 100 then degree_text.take 100
            else degree_text
          let acc := match st.2 with
            | some e => if !e.degree.isEmpty then st.1 ++ [e] else st.1
            | none => st.1
          (acc, some { degree := degree_text })
        | none => st
      match st.2 with
      | none => st
      | some e => (st.1, some (eduFieldsUpdate e line))

/-- `EnhancedParser._extract_education_enhanced`. -/
def extract_education_enhanced (cleaned_text original_text : Str) : List EduEntry :=
  let edu_section := (find_section cleaned_text edu_keywords).getD cleaned_text
  let st := (splitLines edu_section).foldl eduStep ([], none)
  match st.2 with
  | some e => if !e.degree.isEmpty then st.1 ++ [e] else st.1
  | none => st.1

end EnhancedParser

namespace EnhancedParser

def skills_keywords : List Str :=
  ["skills", "technical skills", "competencies", "technologies", "tools",
   "expertise"].map strL

def common_skills : List Str :=
  ["Python", "Java", "JavaScript", "TypeScript", "C++", "C#", "Go", "Rust", "Ruby",
   "PHP", "Swift", "Kotlin", "Scala", "R", "MATLAB", "SQL", "HTML", "CSS", "React",
   "Angular", "Vue", "Node.js", "Express", "Django", "Flask", "FastAPI", "Spring",
   "Laravel", "ASP.NET", "Next.js", "Nuxt.js", "PostgreSQL", "MySQL", "MongoDB",
   "Redis", "Oracle", "SQLite", "Cassandra", "AWS", "Azure", "GCP", "Docker",
   "Kubernetes", "Git", "Linux", "Terraform", "Ansible", "Jenkins", "CI/CD",
   "GitHub Actions", "Machine Learning", "TensorFlow", "PyTorch", "Keras",
   "Scikit-learn", "Pandas", "NumPy", "OpenCV", "Agile", "Scrum", "DevOps",
   "Warehousing", "Logistics", "Supply Chain", "Operations", "Distribution"].map strL

/-- One token of a delimiter-split line, added to the accumulator per the
source's vocabulary check and verbatim fallback. -/
def skillTokenStep (acc : List Str) (piece : Str) : List Str :=
  let skill_text := pyStrip piece
  if skill_text.isEmpty then acc
  else if 3 ≤ skill_text.length && skill_text.length ≤ 50 then
    match common_skills.find? (fun ks => pyLower ks == pyLower skill_text) with
    | some known_skill =>
      if !acc.contains known_skill then acc ++ [known_skill] else acc
    | none =>
      if (skill_text.headD ' ').isUpper && !acc.contains skill_text then
        acc ++ [skill_text]
      else acc
  else acc

/-- Model of Python `list(set(...))`: duplicates removed; CPython's set
iteration order is unspecified, so we fix first-occurrence order as an
admissible order (no claim depends on which order is picked). -/
def pySetList (l : List Str) : List Str :=
  l.foldl (fun acc x => if acc.contains x then acc else acc ++ [x]) []

/-- `EnhancedParser._extract_skills_enhanced`. -/
def extract_skills_enhanced (cleaned_text original_text : Str) : List Str :=
  let skills_section := (find_section cleaned_text skills_keywords).getD cleaned_text
  let skills := common_skills.foldl (fun acc skill =>
    if (reSearch (RE.cat [RE.wb, RE.litCI skill, RE.wb]) skills_section).isSome then
      if !acc.contains skill then acc ++ [skill] else acc
    else acc) []
  let skills := (splitLines skills_section).foldl (fun acc line =>
    if line.contains ',' || line.contains '|' || line.contains ';' then
      match [',', '|', ';'].find? (fun sep => line.contains sep) with
      | some sep => (pySplitCh sep line).foldl skillTokenStep acc
      | none => acc
    else acc) skills
  pySetList skills

def summary_keywords : List Str :=
  ["summary", "objective", "profile", "about", "overview"].map strL

/-- The fallback of `_extract_summary_enhanced`: first of the first ten
lines longer than 50 characters. -/
def summaryFallback (cleaned_text : Str) : Option Str :=
  ((splitLines cleaned_text).take 10).findSome? fun line =>
    if line.length > 50 then some (line.take 500) else none

/-- `EnhancedParser._extract_summary_enhanced`. -/
def extract_summary_enhanced (cleaned_text original_text : Str) : Option Str :=
  match find_section cleaned_text summary_keywords with
  | some summary_section =>
    let sentences := pySplitRuns (CC.oneOf ['.', '!', '?']) summary_section
    let summary := pyStrip (List.intercalate (strL ". ") (sentences.take 3))
    if !summary.isEmpty then some (summary.take 500)
    else summaryFallback cleaned_text
  | none => summaryFallback cleaned_text

def cert_keywords : List Str :=
  ["certification", "certificate", "certified", "license"].map strL

/-- `(?:Certified|Certification|License)\s+[A-Za-z\s]+` (`re.IGNORECASE`). -/
def cert_pattern : RE :=
  RE.cat [altsCI ["Certified", "Certification", "License"],
    RE.rep CC.space 1 none, RE.rep (CC.union ccAlpha CC.space) 1 none]

/-- `EnhancedParser._extract_certifications`. -/
def extract_certifications (text : Str) : List Str :=
  match find_section text cert_keywords with
  | none => []
  | some cert_section => (reFinditer cert_pattern cert_section).map (spanText cert_section)

def lang_keywords : List Str := ["languages", "language"].map strL

def common_langs : List Str :=
  ["English", "Spanish", "French", "German", "Chinese", "Japanese", "Hindi",
   "Arabic", "Portuguese", "Russian", "Italian"].map strL

/-- `EnhancedParser._extract_languages`. -/
def extract_languages (text : Str) : List Str :=
  match find_section text lang_keywords with
  | none => []
  | some lang_section =>
    common_langs.filter fun lang =>
      (reSearch (RE.cat [RE.wb, RE.litCI lang, RE.wb]) lang_section).isSome

/-! ### Confidence scorer -/

/-- The additive part of `_calculate_confidence_enhanced`, before the
has-any-data floor and the clamp. -/
def rawConfidence (d : PreData) : ℚ :=
  (if truthyS d.personal_info.full_name then 10 else 0) +
  (if truthyS d.personal_info.email then 10 else 0) +
  (if truthyS d.personal_info.phone then 10 else 0) +
  (if d.experience.isEmpty then 0
   else min 30 (d.experience.foldl (fun acc e =>
     acc + (if !e.title.isEmpty then 5 else 0) +
       (if truthyS e.company then 3 else 0) +
       (if truthyS e.start_date || truthyS e.end_date then 2 else 0)) 0)) +
  (if d.education.isEmpty then 0
   else min 20 (d.education.foldl (fun acc e =>
     acc + (if !e.degree.isEmpty then 8 else 0) +
       (if truthyS e.institution then 6 else 0) +
       (if truthyS e.year then 6 else 0)) 0)) +
  (if d.skills.isEmpty then 0
   else if d.skills.length ≥ 10 then 20
   else if d.skills.length ≥ 5 then 15
   else if d.skills.length ≥ 3 then 10
   else (d.skills.length : ℚ) * 3) +
  (match d.summary with
   | some s => if s.length > 50 then 5 else 0
   | none => 0) +
  (if d.languages.isEmpty then 0 else min 5 ((d.languages.length : ℚ) * 2)) +
  (if d.certifications.isEmpty then 0 else min 5 ((d.certifications.length : ℚ) * 2))

/-- The `has_any_data` check guarding the minimum-10 floor (note that
`location`, `linkedin`, `github`, `certifications` and `languages` are not
consulted by the source). -/
def hasAnyData (d : PreData) : Bool :=
  truthyS d.personal_info.full_name || truthyS d.personal_info.email ||
  truthyS d.personal_info.phone || !d.experience.isEmpty || !d.education.isEmpty ||
  !d.skills.isEmpty || truthyS d.summary

/-- `EnhancedParser._calculate_confidence_enhanced`. -/
def calculate_confidence_enhanced (d : PreData) : ℚ :=
  let score := rawConfidence d
  let score := if score = 0 && hasAnyData d then 10 else score
  pyRound1 (min 100 score)

/-- `EnhancedParser.parse`.  Non-string input is coerced to `""` by the
source before any extraction, so every input is a `Str` here; the
`if not cleaned_text: cleaned_text = ""` re-check is the identity on
strings. -/
def parse (text : Str) : ParsedData :=
  let cleaned_text := preprocess_text text
  let d : PreData :=
    { personal_info := extract_personal_info_enhanced cleaned_text text
      experience := extract_experience_enhanced cleaned_text text
      education := extract_education_enhanced cleaned_text text
      skills := extract_skills_enhanced cleaned_text text
      summary := extract_summary_enhanced cleaned_text text
      certifications := extract_certifications cleaned_text
      languages := extract_languages cleaned_text }
  { d with confidence_score := calculate_confidence_enhanced d }

end EnhancedParser

/-! ## The Relevancy Scoring Engine: `MatchingService` -/

namespace MatchingService

/-- The result dictionary of `_match_skills`. -/
structure SkillMatchRes where
  score : ℚ
  matched_skills : List Str
  required_skills : List Str
  missing_skills : List Str
deriving DecidableEq

/-- The fixed reference skill vocabulary of `_match_skills`. -/
def common_skills : List Str :=
  ["python", "java", "javascript", "typescript", "react", "angular", "vue",
   "node.js", "sql", "postgresql", "mongodb", "aws", "azure", "gcp", "docker",
   "kubernetes", "git", "agile", "scrum", "ci/cd", "machine learning", "ai",
   "data science", "tensorflow", "pytorch"].map strL

/-- `MatchingService._match_skills`. -/
def match_skills (resume_skills : List Str) (job_desc : Str) : SkillMatchRes :=
  let required_skills := common_skills.filter fun skill => pyIn skill job_desc
  let matched_skills := resume_skills.filter fun skill =>
    required_skills.any fun req => pyIn req skill || pyIn skill req
  let score : ℚ :=
    if required_skills.isEmpty then 0
    else (matched_skills.length : ℚ) / (max required_skills.length 1 : ℕ)
  let score := min score 1
  { score := pyRound2 score
    matched_skills := matched_skills
    required_skills := required_skills
    missing_skills := required_skills.filter fun s =>
      !(matched_skills.any fun rs => pyIn s rs || pyIn rs s) }

/-- The result dictionary of `_match_experience` (`total_years` and
`required_years` are only present on the non-empty path). -/
structure ExpMatchRes where
  score : ℚ
  total_years : Option ℚ
  required_years : Option ℤ
  matched_positions : Nat
  total_positions : Nat
deriving DecidableEq

/-- `MatchingService._extract_year`: first `\b(19|20)\d{2}\b` in the
date string. -/
def extract_year (date_str : Option Str) : Option ℤ :=
  match date_str with
  | none => none
  | some s =>
    if s.isEmpty then none
    else
      match reSearch (RE.cat [RE.wb, RE.alt (RE.lit (strL "19")) (RE.lit (strL "20")),
          RE.rep CC.digit 2 (some 2), RE.wb]) s with
      | some jn => some (digitsToNat (spanText s jn) : ℤ)
      | none => none

/-- `MatchingService._calculate_years_from_exp`.  `nowYear` stands for
`datetime.now().year`.  The parser always stores the `start_date` /
`end_date` keys (possibly as `None`), so `dict.get` returns the stored
value and its defaults are dead; an extracted year is ≥ 1900, so the
truthiness test `start_year and end_year` is the `isSome` test. -/
def calculate_years_from_exp (nowYear : ℤ) (exp : ExpEntry) : ℚ :=
  let start_year := extract_year exp.start_date
  let end_year :=
    if exp.end_date != some (strL "Present") then extract_year exp.end_date
    else some nowYear
  match start_year, end_year with
  | some sy, some ey => ((max 0 (ey - sy) : ℤ) : ℚ)
  | _, _ => 1

/-- Group 1 `(\d+)` of `years_pattern`. -/
def years_g1 : RE := RE.rep CC.digit 1 none

/-- The rest `\+?\s*years?\s*(?:of\s*)?experience` of `years_pattern`
(no `re.IGNORECASE`; the caller passes lowered text). -/
def years_tail : RE :=
  RE.cat [RE.opt (RE.lit (strL "+")), RE.rep CC.space 0 none, RE.lit (strL "year"),
    RE.opt (RE.lit (strL "s")), RE.rep CC.space 0 none,
    RE.opt (RE.cat [RE.lit (strL "of"), RE.rep CC.space 0 none]),
    RE.lit (strL "experience")]

/-- `MatchingService._match_experience`. -/
def match_experience (nowYear : ℤ) (experience : List ExpEntry) (job_desc : Str) :
    ExpMatchRes :=
  if experience.isEmpty then
    { score := 0, total_years := none, required_years := none,
      matched_positions := 0, total_positions := 0 }
  else
    let required_years : ℤ :=
      match reSearch2 years_g1 years_tail job_desc with
      | some r => (digitsToNat ((job_desc.drop r.1).take r.2.1) : ℤ)
      | none => 0
    let total_years : ℚ := (experience.map (calculate_years_from_exp nowYear)).sum
    let score : ℚ :=
      if required_years = 0 then 8/10
      else min (total_years / (required_years : ℚ)) 1
    let relevant_experience := experience.filter fun e =>
      (["engineer", "developer", "manager", "analyst", "designer"].map strL).any
        fun kw => pyIn kw (pyLower e.title)
    let relevance_score : ℚ :=
      (relevant_experience.length : ℚ) / (max experience.length 1 : ℕ)
    let final_score := score * (6/10) + relevance_score * (4/10)
    { score := pyRound2 final_score
      total_years := some (pyRound1 total_years)
      required_years := some required_years
      matched_positions := relevant_experience.length
      total_positions := experience.length }

/-- The result dictionary of `_match_education` (`required_degree` /
`has_required` only on the keyword path). -/
structure EduMatchRes where
  score : ℚ
  matched_degrees : Nat
  required_degree : Option Str
  has_required : Option Bool
deriving DecidableEq

def degree_keywords : List Str :=
  ["bachelor", "master", "phd", "doctorate", "degree"].map strL

/-- `MatchingService._match_education`. -/
def match_education (education : List EduEntry) (job_desc : Str) : EduMatchRes :=
  if education.isEmpty then
    { score := 0, matched_degrees := 0, required_degree := none, has_required := none }
  else
    match degree_keywords.find? (fun keyword => pyIn keyword job_desc) with
    | none =>
      { score := 8/10, matched_degrees := education.length,
        required_degree := none, has_required := none }
    | some required_degree =>
      let matched := education.any fun edu => pyIn required_degree (pyLower edu.degree)
      { score := if matched then 1 else 3/10
        matched_degrees := education.length
        required_degree := some required_degree
        has_required := some matched }

/-- The result dictionary of `_match_titles`. -/
structure TitleMatchRes where
  score : ℚ
  matched_titles : List Str
  relevant_keywords : Option (List Str)
deriving DecidableEq

def title_keywords : List Str :=
  ["engineer", "developer", "manager", "analyst", "designer", "architect"].map strL

/-- `MatchingService._match_titles`. -/
def match_titles (job_titles : List Str) (job_desc : Str) : TitleMatchRes :=
  if job_titles.isEmpty then
    { score := 0, matched_titles := [], relevant_keywords := none }
  else
    let desc_title_keywords := title_keywords.filter fun kw => pyIn kw job_desc
    let matched_titles := job_titles.filter fun title =>
      desc_title_keywords.any fun kw => pyIn kw title
    { score := pyRound2 ((matched_titles.length : ℚ) / (max job_titles.length 1 : ℕ))
      matched_titles := matched_titles
      relevant_keywords := some desc_title_keywords }

/-- `MatchingService._generate_match_summary`. -/
def generate_match_summary (overall : ℚ) : Str :=
  if overall ≥ 8/10 then strL "Excellent match - Strong candidate for this position"
  else if overall ≥ 6/10 then strL "Good match - Candidate meets most requirements"
  else if overall ≥ 4/10 then strL "Moderate match - Some gaps in requirements"
  else strL "Weak match - Significant gaps in requirements"

/-- A Python exception value (opaque payload). -/
def PyErr : Type := String

/-- The result dictionary of `calculate_relevancy_score`; the
`detailed_scores` sub-dictionary is modelled by the four `det_*` fields
(`none` = key absent), `semantic_score` and `match_summary` are only
present when their assignments are reached. -/
structure Scores where
  overall_score : ℚ := 0
  skill_match : ℚ := 0
  experience_match : ℚ := 0
  education_match : ℚ := 0
  title_match : ℚ := 0
  det_skill : Option SkillMatchRes := none
  det_experience : Option ExpMatchRes := none
  det_education : Option EduMatchRes := none
  det_title : Option TitleMatchRes := none
  semantic_score : Option ℚ := none
  match_summary : Option Str := none
deriving DecidableEq

/-- The body of `MatchingService.calculate_relevancy_score`, parameterized
by the outcome of each component scorer.  The source wraps the whole body
in a single `try/except` that logs and returns `scores` as-is, so a
failing component keeps every assignment made before it and leaves the
defaults everywhere after it; `semantic` is the optional semantic backend
(`none` = unavailable). -/
def calculate_relevancy_with (rSkill : Except PyErr SkillMatchRes)
    (rExp : Except PyErr ExpMatchRes) (rEdu : Except PyErr EduMatchRes)
    (rTitle : Except PyErr TitleMatchRes) (semantic : Option ℚ) : Scores :=
  let s0 : Scores := {}
  match rSkill with
  | .error _ => s0
  | .ok a =>
    let s1 := { s0 with skill_match := a.score, det_skill := some a }
    match rExp with
    | .error _ => s1
    | .ok b =>
      let s2 := { s1 with experience_match := b.score, det_experience := some b }
      match rEdu with
      | .error _ => s2
      | .ok c =>
        let s3 := { s2 with education_match := c.score, det_education := some c }
        match rTitle with
        | .error _ => s3
        | .ok d =>
          let s4 := { s3 with title_match := d.score, det_title := some d }
          let s5 := { s4 with overall_score :=
            s4.skill_match * (40/100) + s4.experience_match * (30/100) +
            s4.education_match * (15/100) + s4.title_match * (15/100) }
          let s6 :=
            match semantic with
            | none => s5
            | some sem =>
              { s5 with semantic_score := some sem
                        overall_score := s5.overall_score * (7/10) + sem * (3/10) }
          { s6 with match_summary := some (generate_match_summary s6.overall_score) }

/-- `MatchingService.calculate_relevancy_score` for a well-typed profile:
the four component scorers are total on typed input, so each contributes
an `.ok` result. -/
def calculate_relevancy_score (nowYear : ℤ) (resume_data : PreData)
    (job_description : Str) (semantic : Option ℚ) : Scores :=
  let skills := resume_data.skills.map pyLower
  let experience := resume_data.experience
  let education := resume_data.education
  let job_titles := (experience.filter fun e => !e.title.isEmpty).map
    fun e => pyLower e.title
  let job_desc_lower := pyLower job_description
  calculate_relevancy_with
    (.ok (match_skills skills job_desc_lower))
    (.ok (match_experience nowYear experience job_desc_lower))
    (.ok (match_education education job_desc_lower))
    (.ok (match_titles job_titles job_desc_lower))
    semantic

end MatchingService

/-! ## Static analyses of regexes (for the universally quantified claims) -/

/-- A lower bound on the number of consumed characters whose class is
certified by `f`, for any match of the regex. -/
def RE.minCnt (f : CC → Bool) : RE → Nat
  | .eps => 0
  | .cls k => if f k then 1 else 0
  | .seq a b => a.minCnt f + b.minCnt f
  | .alt a b => min (a.minCnt f) (b.minCnt f)
  | .opt _ => 0
  | .rep k lo _ => if f k then lo else 0
  | .wb => 0
  | .bos => 0
  | .eos => 0

/-- An upper bound (`none` = unbounded) on the number of consumed
characters, for any match of the regex. -/
def RE.maxLen : RE → Option Nat
  | .eps => some 0
  | .cls _ => some 1
  | .seq a b =>
    match a.maxLen, b.maxLen with
    | some x, some y => some (x + y)
    | _, _ => none
  | .alt a b =>
    match a.maxLen, b.maxLen with
    | some x, some y => some (max x y)
    | _, _ => none
  | .opt a => a.maxLen
  | .rep _ _ hi => hi
  | .wb => some 0
  | .bos => some 0
  | .eos => some 0

/-- The character just before position `j` of `text` (`none` at the start). -/
def prevAt (text : Str) (j : Nat) : Option Char :=
  match j with
  | 0 => none
  | j + 1 => text.get? j

/-- Does `s` start with `kw`, matched character-by-character against the
lower- or upper-case variant of each keyword character (ASCII
`re.IGNORECASE`)? -/
def startsCI : Str → Str → Bool
  | [], _ => true
  | _ :: _, [] => false
  | a :: as_, b :: bs => (b == lowc a || b == upc a) && startsCI as_ bs

/-- `kw` occurs at position `j` of `text` as a whole word, matched
case-insensitively, with both ends of the occurrence at a word/non-word
transition (Python's `\b`, positions outside the text counting as
non-word).  Both the characters and the boundaries are evaluated on the
lowered text, exactly as `_find_section` does. -/
def occursAt (kw text : Str) (j : Nat) : Prop :=
  startsCI kw ((pyLower text).drop j) = true ∧
  isWordOpt (prevAt (pyLower text) j) ≠ isWordOpt ((pyLower text).get? j) ∧
  isWordOpt ((((pyLower text).drop j).take kw.length).getLast?) ≠
    isWordOpt ((pyLower text).get? (j + kw.length))

/-- `kw` occurs somewhere in `text` as a whole word, case-insensitively. -/
def wholeWordOccurs (kw text : Str) : Prop :=
  kw ≠ [] ∧ ∃ j, occursAt kw text j

/-- The per-keyword body of `_find_section`'s loop: the section returned for
one keyword, or `none` when the keyword is empty or does not match.
Definitionally equal to the lambda inside `find_section`. -/
def sectionForKw (text kw : Str) : Option Str :=
  if kw.isEmpty then none
  else
    match reSearch (RE.cat [RE.wb, RE.litCI kw, RE.wb]) (pyLower text) with
    | none => none
    | some (j, n) =>
      match reSearch EnhancedParser.end_pattern (text.drop (j + n)) with
      | some em => some ((text.drop (j + n)).take em.1)
      | none => some ((text.drop (j + n)).take 2000)

/-! ## Concrete inputs used by individual claims -/

/-- The end-to-end scenario text of the specification (§8). -/
def c2text : Str :=
  strL "John Doe\njohn@x.com\n555-123-4567\nEXPERIENCE\nSenior Software Engineer at Acme Inc\nJan 2020 - Present\nSKILLS\nPython, SQL, Docker"

/-- A resume whose section body runs for more than 2000 characters before
the first section-header boundary. -/
def longSectionText : Str :=
  strL "skills" ++ ['\n'] ++ List.replicate 2050 'a' ++ strL "\nABCDEFGHIJKLMNOP"

/-- A profile whose only non-empty field is `personal.location`. -/
def locOnlyProfile : PreData :=
  { personal_info :=
      { full_name := none, email := none, phone := none,
        location := some ['N', 'Y', 'C'], linkedin := none, github := none }
    experience := [], education := [], skills := [], summary := none
    certifications := [], languages := [] }

/-- The fully empty profile. -/
def emptyProfile : PreData :=
  { personal_info :=
      { full_name := none, email := none, phone := none, location := none,
        linkedin := none, github := none }
    experience := [], education := [], skills := [], summary := none
    certifications := [], languages := [] }

/-- A profile whose only non-empty field is a short summary (its weighted
points are zero, so it exercises the confidence floor). -/
def summaryOnlyProfile : PreData :=
  { emptyProfile with summary := some ['h', 'i'] }

/-- The resume text of the C8 counterexample: two comma-separated tokens
that differ only in case. -/
def zigText : Str := strL "skills\nZig, ZIG"


/-! ## Lemmas about classes, counting and stripping -/

theorem wsp_false_of_isDigit (c : Char) (h : c.isDigit = true) : wsp c = false := by
  by_contra hw
  rw [Bool.not_eq_false] at hw
  simp [wsp] at hw
  rcases hw with ((((rfl | rfl) | rfl) | rfl) | rfl) | rfl <;> revert h <;> decide

theorem wsp_false_of_isUpper (c : Char) (h : c.isUpper = true) : wsp c = false := by
  by_contra hw
  rw [Bool.not_eq_false] at hw
  simp [wsp] at hw
  rcases hw with ((((rfl | rfl) | rfl) | rfl) | rfl) | rfl <;> revert h <;> decide

theorem wsp_false_of_isLower (c : Char) (h : c.isLower = true) : wsp c = false := by
  by_contra hw
  rw [Bool.not_eq_false] at hw
  simp [wsp] at hw
  rcases hw with ((((rfl | rfl) | rfl) | rfl) | rfl) | rfl <;> revert h <;> decide

theorem CC.test_allDigit : ∀ (k : CC), k.allDigit = true →
    ∀ (c : Char), k.test c = true → c.isDigit = true := by
  intro k
  induction k with
  | digit => intro _ c hc; simpa [CC.test] using hc
  | space => intro hk; simp [CC.allDigit] at hk
  | ualpha => intro hk; simp [CC.allDigit] at hk
  | lalpha => intro hk; simp [CC.allDigit] at hk
  | nonNl => intro hk; simp [CC.allDigit] at hk
  | ch a => intro hk c hc
            simp [CC.allDigit] at hk
            simp [CC.test] at hc
            simpa [hc] using hk
  | oneOf s => intro hk c hc
               simp [CC.allDigit, List.all_eq_true] at hk
               simp [CC.test] at hc
               exact hk c hc
  | union a b iha ihb =>
    intro hk c hc
    simp [CC.allDigit] at hk
    simp [CC.test] at hc
    rcases hc with hc | hc
    · exact iha hk.1 c hc
    · exact ihb hk.2 c hc

theorem CC.test_noSpace : ∀ (k : CC), k.noSpace = true →
    ∀ (c : Char), k.test c = true → wsp c = false := by
  intro k
  induction k with
  | digit => intro _ c hc
             simp only [CC.test] at hc
             exact wsp_false_of_isDigit c hc
  | space => intro hk; simp [CC.noSpace] at hk
  | ualpha => intro _ c hc
              simp only [CC.test] at hc
              exact wsp_false_of_isUpper c hc
  | lalpha => intro _ c hc
              simp only [CC.test] at hc
              exact wsp_false_of_isLower c hc
  | nonNl => intro hk; simp [CC.noSpace] at hk
  | ch a => intro hk c hc
            simp [CC.noSpace] at hk
            simp [CC.test] at hc
            simpa [hc] using hk
  | oneOf s => intro hk c hc
               simp [CC.noSpace, List.all_eq_true] at hk
               simp [CC.test] at hc
               simpa using hk c hc
  | union a b iha ihb =>
    intro hk c hc
    simp [CC.noSpace] at hk
    simp [CC.test] at hc
    rcases hc with hc | hc
    · exact iha hk.1 c hc
    · exact ihb hk.2 c hc

theorem take_all_of_le_takeWhile {p : Char → Bool} :
    ∀ (cs : Str) (n : Nat), n ≤ (cs.takeWhile p).length →
      ∀ c ∈ cs.take n, p c = true := by
  intro cs
  induction cs with
  | nil => simp
  | cons a l ih =>
    intro n hn c hc
    by_cases hp : p a
    · cases n with
      | zero => simp at hc
      | succ m =>
        rw [List.takeWhile_cons_of_pos hp] at hn
        simp only [List.length_cons, Nat.succ_le_succ_iff] at hn
        simp only [List.take_succ_cons, List.mem_cons] at hc
        rcases hc with rfl | hc
        · exact hp
        · exact ih m hn c hc
    · rw [List.takeWhile_cons_of_neg hp] at hn
      simp at hn
      subst hn
      simp at hc

theorem length_takeWhile_le' {p : Char → Bool} (cs : Str) :
    (cs.takeWhile p).length ≤ cs.length := by
  induction cs with
  | nil => simp
  | cons a l ih =>
    by_cases hp : p a
    · rw [List.takeWhile_cons_of_pos hp]; simpa using ih
    · rw [List.takeWhile_cons_of_neg hp]; simp

theorem countP_dropWhile_eq {p q : Char → Bool}
    (h : ∀ c, p c = true → q c = false) :
    ∀ (l : Str), (l.dropWhile p).countP q = l.countP q := by
  intro l
  induction l with
  | nil => simp
  | cons a l ih =>
    by_cases hp : p a
    · rw [List.dropWhile_cons_of_pos hp, ih, List.countP_cons, h a hp]
      simp
    · rw [List.dropWhile_cons_of_neg hp]

theorem countP_reverse' (q : Char → Bool) (l : Str) :
    l.reverse.countP q = l.countP q := by
  induction l with
  | nil => simp
  | cons a l ih => simp [List.reverse_cons, List.countP_append, List.countP_cons, ih]

theorem countP_pyStrip {q : Char → Bool}
    (h : ∀ c, wsp c = true → q c = false) (s : Str) :
    (pyStrip s).countP q = s.countP q := by
  unfold pyStrip dropRightWhile
  rw [countP_reverse', countP_dropWhile_eq h, countP_reverse', countP_dropWhile_eq h]

theorem dropWhile_eq_self_of_forall {p : Char → Bool} (l : Str)
    (h : ∀ c ∈ l, p c = false) : l.dropWhile p = l := by
  cases l with
  | nil => rfl
  | cons a l =>
    apply List.dropWhile_cons_of_neg
    simp [h a (List.mem_cons_self a l)]

theorem pyStrip_eq_self_of_forall (s : Str) (h : ∀ c ∈ s, wsp c = false) :
    pyStrip s = s := by
  unfold pyStrip dropRightWhile
  rw [dropWhile_eq_self_of_forall s h,
    dropWhile_eq_self_of_forall s.reverse (by intro c hc; exact h c (List.mem_reverse.mp hc)),
    List.reverse_reverse]

/-! ## Bounds on regex matches -/

theorem RE.matches_le_length :
    ∀ (r : RE) (prev : Option Char) (cs : Str) (n : Nat),
      n ∈ r.matches prev cs → n ≤ cs.length := by
  intro r
  induction r with
  | eps => intro prev cs n h
           simp [RE.matches] at h
           omega
  | cls k =>
    intro prev cs n h
    cases cs with
    | nil => simp [RE.matches] at h
    | cons c l =>
      simp only [RE.matches] at h
      split at h
      · simp at h
        simp [h]
      · simp at h
  | seq a b iha ihb =>
    intro prev cs n h
    simp only [RE.matches, List.mem_flatMap, List.mem_map] at h
    obtain ⟨n1, h1, n2, h2, rfl⟩ := h
    have ha := iha prev cs n1 h1
    have hb := ihb _ _ n2 h2
    simp [List.length_drop] at hb
    omega
  | alt a b iha ihb =>
    intro prev cs n h
    simp only [RE.matches, List.mem_append] at h
    rcases h with h | h
    · exact iha prev cs n h
    · exact ihb prev cs n h
  | opt a iha =>
    intro prev cs n h
    simp only [RE.matches, List.mem_append, List.mem_singleton] at h
    rcases h with h | rfl
    · exact iha prev cs n h
    · omega
  | rep k lo hi =>
    intro prev cs n h
    have hm : (cs.takeWhile k.test).length ≤ cs.length := length_takeWhile_le' cs
    cases hi with
    | none =>
      simp only [RE.matches] at h
      split at h
      · simp at h
      · simp only [List.mem_map, List.mem_range] at h
        obtain ⟨i, _, rfl⟩ := h
        omega
    | some hh =>
      simp only [RE.matches] at h
      split at h
      · simp at h
      · simp only [List.mem_map, List.mem_range] at h
        obtain ⟨i, _, rfl⟩ := h
        have : min (cs.takeWhile k.test).length hh ≤ cs.length := by omega
        omega
  | wb =>
    intro prev cs n h
    simp only [RE.matches] at h
    split at h <;> simp at h
    omega
  | bos =>
    intro prev cs n h
    simp only [RE.matches] at h
    split at h <;> simp at h
    omega
  | eos =>
    intro prev cs n h
    simp only [RE.matches] at h
    split at h <;> simp at h
    omega

theorem RE.minCnt_le_countP {f : CC → Bool} {q : Char → Bool}
    (hf : ∀ (k : CC), f k = true → ∀ (c : Char), k.test c = true → q c = true) :
    ∀ (r : RE) (prev : Option Char) (cs : Str) (n : Nat),
      n ∈ r.matches prev cs → r.minCnt f ≤ (cs.take n).countP q := by
  intro r
  induction r with
  | eps => intro prev cs n h; simp [RE.minCnt]
  | cls k =>
    intro prev cs n h
    cases cs with
    | nil => simp [RE.matches] at h
    | cons c l =>
      simp only [RE.matches] at h
      split at h
      · simp at h
        subst h
        simp only [RE.minCnt]
        split
        · rename_i hfk
          have : q c = true := hf k hfk c (by assumption)
          simp [List.countP_cons, this]
        · omega
      · simp at h
  | seq a b iha ihb =>
    intro prev cs n h
    simp only [RE.matches, List.mem_flatMap, List.mem_map] at h
    obtain ⟨n1, h1, n2, h2, rfl⟩ := h
    have ha := iha prev cs n1 h1
    have hb := ihb _ _ n2 h2
    have hsplit : cs.take (n1 + n2) = cs.take n1 ++ (cs.drop n1).take n2 := by
      rw [List.take_add]
    simp only [RE.minCnt, hsplit, List.countP_append]
    omega
  | alt a b iha ihb =>
    intro prev cs n h
    simp only [RE.matches, List.mem_append] at h
    simp only [RE.minCnt]
    rcases h with h | h
    · have := iha prev cs n h; omega
    · have := ihb prev cs n h; omega
  | opt a iha => intro prev cs n h; simp [RE.minCnt]
  | rep k lo hi =>
    intro prev cs n h
    simp only [RE.minCnt]
    split
    · rename_i hfk
      have hlen : ∀ c ∈ cs.take n, q c = true := by
        intro c hc
        have hk : k.test c = true := by
          refine take_all_of_le_takeWhile cs n ?_ c hc
          cases hi with
          | none =>
            simp only [RE.matches] at h
            split at h
            · simp at h
            · simp only [List.mem_map, List.mem_range] at h
              obtain ⟨i, _, rfl⟩ := h
              omega
          | some hh =>
            simp only [RE.matches] at h
            split at h
            · simp at h
            · simp only [List.mem_map, List.mem_range] at h
              obtain ⟨i, _, rfl⟩ := h
              omega
        exact hf k hfk c hk
      have hcount : (cs.take n).countP q = (cs.take n).length :=
        List.countP_eq_length.mpr hlen
      have hlo : lo ≤ n := by
        cases hi with
        | none =>
          simp only [RE.matches] at h
          split at h
          · simp at h
          · simp only [List.mem_map, List.mem_range] at h
            obtain ⟨i, hi2, rfl⟩ := h
            omega
        | some hh =>
          simp only [RE.matches] at h
          split at h
          · simp at h
          · simp only [List.mem_map, List.mem_range] at h
            obtain ⟨i, hi2, rfl⟩ := h
            omega
      have hn := RE.matches_le_length (RE.rep k lo hi) prev cs n h
      rw [hcount, List.length_take]
      omega
    · omega
  | wb => intro prev cs n h; simp [RE.minCnt]
  | bos => intro prev cs n h; simp [RE.minCnt]
  | eos => intro prev cs n h; simp [RE.minCnt]

theorem RE.le_maxLen :
    ∀ (r : RE) (prev : Option Char) (cs : Str) (n : Nat),
      n ∈ r.matches prev cs → ∀ (M : Nat), r.maxLen = some M → n ≤ M := by
  intro r
  induction r with
  | eps => intro prev cs n h M hM
           simp [RE.matches] at h
           simp [RE.maxLen] at hM
           omega
  | cls k =>
    intro prev cs n h M hM
    simp only [RE.maxLen, Option.some.injEq] at hM
    cases cs with
    | nil => simp [RE.matches] at h
    | cons c l =>
      simp only [RE.matches] at h
      split at h
      · simp at h; omega
      · simp at h
  | seq a b iha ihb =>
    intro prev cs n h M hM
    simp only [RE.matches, List.mem_flatMap, List.mem_map] at h
    obtain ⟨n1, h1, n2, h2, rfl⟩ := h
    simp only [RE.maxLen] at hM
    split at hM
    · rename_i x y hx hy
      simp only [Option.some.injEq] at hM
      have := iha prev cs n1 h1 x hx
      have := ihb _ _ n2 h2 y hy
      omega
    · simp at hM
  | alt a b iha ihb =>
    intro prev cs n h M hM
    simp only [RE.matches, List.mem_append] at h
    simp only [RE.maxLen] at hM
    split at hM
    · rename_i x y hx hy
      simp only [Option.some.injEq] at hM
      rcases h with h | h
      · have := iha prev cs n h x hx; omega
      · have := ihb prev cs n h y hy; omega
    · simp at hM
  | opt a iha =>
    intro prev cs n h M hM
    simp only [RE.matches, List.mem_append, List.mem_singleton] at h
    simp only [RE.maxLen] at hM
    rcases h with h | rfl
    · exact iha prev cs n h M hM
    · omega
  | rep k lo hi =>
    intro prev cs n h M hM
    simp only [RE.maxLen] at hM
    subst hM
    simp only [RE.matches] at h
    split at h
    · simp at h
    · simp only [List.mem_map, List.mem_range] at h
      obtain ⟨i, _, rfl⟩ := h
      omega
  | wb => intro prev cs n h M hM
          simp only [RE.matches] at h
          split at h <;> simp at h
          simp [RE.maxLen] at hM
          omega
  | bos => intro prev cs n h M hM
           simp only [RE.matches] at h
           split at h <;> simp at h
           simp [RE.maxLen] at hM
           omega
  | eos => intro prev cs n h M hM
           simp only [RE.matches] at h
           split at h <;> simp at h
           simp [RE.maxLen] at hM
           omega


/-! ## Soundness of search and finditer -/

theorem mem_of_head?_eq {α : Type} {l : List α} {a : α} (h : l.head? = some a) :
    a ∈ l := by
  cases l <;> simp_all

theorem searchFrom_sound_ex {r : RE} :
    ∀ (cs : Str) (prev : Option Char) (i j n : Nat),
      searchFrom r prev cs i = some (j, n) →
      i ≤ j ∧ ∃ prev', n ∈ r.matches prev' (cs.drop (j - i)) := by
  intro cs
  induction cs with
  | nil =>
    intro prev i j n h
    rw [searchFrom] at h
    cases hm : (r.matches prev []).head? with
    | none => rw [hm] at h; simp at h
    | some m =>
      rw [hm] at h
      simp only [Option.map_some', Option.some.injEq, Prod.mk.injEq] at h
      obtain ⟨rfl, rfl⟩ := h
      exact ⟨le_refl _, prev, by simpa using mem_of_head?_eq hm⟩
  | cons c rest ih =>
    intro prev i j n h
    rw [searchFrom] at h
    cases hm : (r.matches prev (c :: rest)).head? with
    | some m =>
      rw [hm] at h
      simp only [Option.some.injEq, Prod.mk.injEq] at h
      obtain ⟨rfl, rfl⟩ := h
      exact ⟨le_refl _, prev, by simpa using mem_of_head?_eq hm⟩
    | none =>
      rw [hm] at h
      obtain ⟨h1, prev', h3⟩ := ih (some c) (i + 1) j n h
      refine ⟨by omega, prev', ?_⟩
      have hd : (c :: rest).drop (j - i) = rest.drop (j - (i + 1)) := by
        have he : j - i = (j - (i + 1)) + 1 := by omega
        rw [he]
        simp
      rw [hd]
      exact h3

theorem finditerAux_sound {r : RE} :
    ∀ (fuel : Nat) (prev : Option Char) (cs : Str) (i j n : Nat),
      (j, n) ∈ finditerAux r fuel prev cs i →
      i ≤ j ∧ ∃ prev', n ∈ r.matches prev' (cs.drop (j - i)) := by
  intro fuel
  induction fuel with
  | zero => intro prev cs i j n h; simp [finditerAux] at h
  | succ fuel ih =>
    intro prev cs i j n h
    rw [finditerAux] at h
    cases hsf : searchFrom r prev cs i with
    | none => rw [hsf] at h; simp at h
    | some p =>
      obtain ⟨j0, n0⟩ := p
      rw [hsf] at h
      simp only [List.mem_cons, Prod.mk.injEq] at h
      rcases h with ⟨rfl, rfl⟩ | h
      · exact searchFrom_sound_ex cs prev i j n hsf
      · obtain ⟨hj0, _⟩ := searchFrom_sound_ex cs prev i j0 n0 hsf
        obtain ⟨h1, prev', h3⟩ := ih _ _ _ j n h
        rw [List.drop_drop] at h3
        have hmax1 : 1 ≤ max n0 1 := le_max_right _ _
        generalize hM : max n0 1 = M at h1 h3 hmax1
        have harith : j0 - i + M + (j - (j0 + M)) = j - i := by omega
        rw [harith] at h3
        exact ⟨by omega, prev', h3⟩

theorem reFinditer_sound {r : RE} {text : Str} {j n : Nat}
    (h : (j, n) ∈ reFinditer r text) :
    ∃ prev', n ∈ r.matches prev' (text.drop j) := by
  obtain ⟨_, hm⟩ := finditerAux_sound (r := r) (text.length + 1) none text 0 j n h
  simpa using hm

/-! ## Shape of extracted phone numbers (C10) -/

namespace EnhancedParser

theorem phone_long_pattern_reject {pat : RE} (hpat : 11 ≤ pat.minCnt CC.noSpace)
    (text : Str) (jn : Nat × Nat) (hmem : jn ∈ reFinditer pat text) :
    phoneCandOk text jn = false := by
  by_contra hok
  rw [Bool.not_eq_false] at hok
  obtain ⟨j, n⟩ := jn
  obtain ⟨prev', hmatch⟩ := reFinditer_sound hmem
  have hf : ∀ (k : CC), CC.noSpace k = true → ∀ (c : Char), k.test c = true →
      (!wsp c) = true := by
    intro k hk c hc
    rw [CC.test_noSpace k hk c hc]
    rfl
  have hcnt := RE.minCnt_le_countP hf pat prev' (text.drop j) n hmatch
  have hstrip : (pyStrip ((text.drop j).take n)).countP (fun c => !wsp c) =
      ((text.drop j).take n).countP (fun c => !wsp c) := by
    apply countP_pyStrip
    intro c hc
    simp [hc]
  have hlen10 : (pyStrip ((text.drop j).take n)).length = 10 := by
    simp only [phoneCandOk, spanText, Bool.and_eq_true, beq_iff_eq] at hok
    exact hok.1.1
  have hle : (pyStrip ((text.drop j).take n)).countP (fun c => !wsp c) ≤ 10 := by
    rw [← hlen10]
    exact List.countP_le_length _
  omega

/-- A match of `\b\d{10}\b` consumes exactly ten characters, all digits. -/
theorem phone_pattern4_shape {prev : Option Char} {cs : Str} {n : Nat}
    (h : n ∈ phone_pattern4.matches prev cs) :
    n = 10 ∧ ∀ c ∈ cs.take n, c.isDigit = true := by
  have hmax := RE.le_maxLen phone_pattern4 prev cs n h 10 (by decide)
  have hlen := RE.matches_le_length phone_pattern4 prev cs n h
  have htriv : ∀ (k : CC), (fun (_ : CC) => true) k = true → ∀ (c : Char),
      k.test c = true → (fun (_ : Char) => true) c = true := by
    intro _ _ _ _; rfl
  have hmin := RE.minCnt_le_countP htriv phone_pattern4 prev cs n h
  have hmin10 : phone_pattern4.minCnt (fun _ => true) = 10 := by decide
  rw [hmin10] at hmin
  have hcount : (cs.take n).countP (fun _ => true) = (cs.take n).length := by
    simp [List.countP_eq_length]
  rw [hcount, List.length_take] at hmin
  have hn : n = 10 := by omega
  subst hn
  refine ⟨rfl, ?_⟩
  have hdig := RE.minCnt_le_countP CC.test_allDigit phone_pattern4 prev cs 10 h
  have hdig10 : phone_pattern4.minCnt CC.allDigit = 10 := by decide
  rw [hdig10] at hdig
  have hlt : (cs.take 10).length = 10 := by
    rw [List.length_take]
    omega
  have : (cs.take 10).countP Char.isDigit = (cs.take 10).length := by
    have hle : (cs.take 10).countP Char.isDigit ≤ (cs.take 10).length := by
      apply List.countP_le_length
    omega
  have hall := List.countP_eq_length.mp this
  exact fun c hc => hall c hc

end EnhancedParser

namespace EnhancedParser

/-- If one of the first three phone patterns contributes no acceptable
candidate, `findSome?` falls through it. -/
theorem phone_find_none {pat : RE} (hpat : 11 ≤ pat.minCnt CC.noSpace)
    (text : Str) :
    ((reFinditer pat text).find? (phoneCandOk text)).map
      (fun jn => pyStrip (spanText text jn)) = none := by
  cases hfind : (reFinditer pat text).find? (phoneCandOk text) with
  | none => rfl
  | some jn =>
    have hok := List.find?_some hfind
    have hmem := List.mem_of_find?_eq_some hfind
    have := phone_long_pattern_reject hpat text jn hmem
    rw [this] at hok
    cases hok

/-- Full characterization of a successfully extracted phone number: ten
characters, all digits, not starting with `19`/`20`, equal to a slice of
the source text whose neighbours are not digits. -/
theorem extract_phone_spec (text s : Str) (h : extract_phone text = some s) :
    s.length = 10 ∧ (∀ c ∈ s, c.isDigit = true) ∧
    pyStarts (strL "19") s = false ∧ pyStarts (strL "20") s = false ∧
    ∃ j, (text.drop j).take 10 = s ∧
      (∀ c, j ≠ 0 → text.get? (j - 1) = some c → c.isDigit = false) ∧
      (∀ c, text.get? (j + 10) = some c → c.isDigit = false) := by
  have h1 := @phone_find_none phone_pattern1 (by decide) text
  have h2 := @phone_find_none phone_pattern2 (by decide) text
  have h3 := @phone_find_none phone_pattern3 (by decide) text
  rw [extract_phone] at h
  simp only [phone_patterns, List.findSome?_cons, h1, h2, h3] at h
  rw [List.findSome?] at h
  cases hfind : (reFinditer phone_pattern4 text).find? (phoneCandOk text) with
  | none => rw [hfind] at h; simp at h
  | some jn =>
    rw [hfind] at h
    simp only [Option.map_some', Option.some.injEq] at h
    obtain ⟨j, n⟩ := jn
    have hok := List.find?_some hfind
    have hmem := List.mem_of_find?_eq_some hfind
    obtain ⟨prev', hmatch⟩ := reFinditer_sound hmem
    obtain ⟨hn10, hdigits⟩ := phone_pattern4_shape hmatch
    subst hn10
    have hspan_digits : ∀ c ∈ (text.drop j).take 10, c.isDigit = true := hdigits
    have hstrip_id : pyStrip ((text.drop j).take 10) = (text.drop j).take 10 := by
      apply pyStrip_eq_self_of_forall
      intro c hc
      exact wsp_false_of_isDigit c (hspan_digits c hc)
    simp only [phoneCandOk, spanText, Bool.and_eq_true, beq_iff_eq, Bool.not_eq_true',
      Bool.or_eq_false_iff] at hok
    obtain ⟨⟨hlen, hpre⟩, hctx⟩ := hok
    simp only [spanText] at h
    rw [hstrip_id] at h hlen hpre
    subst h
    refine ⟨hlen, hspan_digits, hpre.1, hpre.2, j, rfl, ?_, ?_⟩
    · intro c hj hget
      rcases hctx with ⟨hbefore, _⟩
      cases j with
      | zero => exact absurd rfl hj
      | succ j' =>
        simp only [Nat.add_sub_cancel] at hget
        have hbefore' : Option.any Char.isDigit (List.get? text j') = false := hbefore
        rw [hget] at hbefore'
        simpa using hbefore' 
    · intro c hget
      rcases hctx with ⟨_, hafter⟩
      rw [hget] at hafter
      simpa using hafter

end EnhancedParser

/-! ## Round-half-even lemmas -/

theorem rhe_intCast (n : ℤ) : rhe (n : ℚ) = n := by
  unfold rhe
  norm_num

theorem rhe_nonneg {q : ℚ} (h : 0 ≤ q) : 0 ≤ rhe q := by
  have h0 : (0 : ℤ) ≤ ⌊q⌋ := Int.floor_nonneg.mpr h
  unfold rhe
  split_ifs <;> omega

theorem rhe_le_floor_add_one (q : ℚ) : rhe q ≤ ⌊q⌋ + 1 := by
  unfold rhe
  split_ifs <;> omega

theorem rhe_le_of_le_int {q : ℚ} {n : ℤ} (h : q ≤ (n : ℚ)) : rhe q ≤ n := by
  have hfle : ⌊q⌋ ≤ n := by
    have := Int.floor_le_floor h
    simpa using this
  by_cases heq : ⌊q⌋ = n
  · have hqn : (n : ℚ) ≤ q := by
      calc (n : ℚ) = (⌊q⌋ : ℚ) := by exact_mod_cast heq.symm
        _ ≤ q := Int.floor_le q
    have : q = (n : ℚ) := le_antisymm h hqn
    rw [this, rhe_intCast]
  · have : ⌊q⌋ + 1 ≤ n := by omega
    have h2 := rhe_le_floor_add_one q
    omega

theorem pyRound1_nonneg {q : ℚ} (h : 0 ≤ q) : 0 ≤ pyRound1 q := by
  unfold pyRound1
  apply div_nonneg _ (by norm_num)
  exact_mod_cast rhe_nonneg (by positivity)

theorem pyRound1_le_100 {q : ℚ} (h : q ≤ 100) : pyRound1 q ≤ 100 := by
  unfold pyRound1
  rw [div_le_iff₀ (by norm_num : (0:ℚ) < 10)]
  have : rhe (q * 10) ≤ (1000 : ℤ) := by
    apply rhe_le_of_le_int
    push_cast
    linarith
  calc (rhe (q * 10) : ℚ) ≤ (1000 : ℚ) := by exact_mod_cast this
    _ = 100 * 10 := by norm_num

theorem pyRound2_nonneg {q : ℚ} (h : 0 ≤ q) : 0 ≤ pyRound2 q := by
  unfold pyRound2
  apply div_nonneg _ (by norm_num)
  exact_mod_cast rhe_nonneg (by positivity)

theorem pyRound2_le_one {q : ℚ} (h : q ≤ 1) : pyRound2 q ≤ 1 := by
  unfold pyRound2
  rw [div_le_iff₀ (by norm_num : (0:ℚ) < 100)]
  have : rhe (q * 100) ≤ (100 : ℤ) := by
    apply rhe_le_of_le_int
    push_cast
    linarith
  calc (rhe (q * 100) : ℚ) ≤ (100 : ℚ) := by exact_mod_cast this
    _ = 1 * 100 := by norm_num

/-! ## Confidence-score bounds -/

namespace EnhancedParser

theorem expFold_nonneg (l : List ExpEntry) :
    ∀ (init : ℚ), 0 ≤ init →
      0 ≤ l.foldl (fun acc e =>
        acc + (if !e.title.isEmpty then 5 else 0) +
          (if truthyS e.company then 3 else 0) +
          (if truthyS e.start_date || truthyS e.end_date then 2 else 0)) init := by
  induction l with
  | nil => intro init h; simpa using h
  | cons e l ih =>
    intro init h
    apply ih
    dsimp only
    split_ifs <;> linarith

theorem eduFold_nonneg (l : List EduEntry) :
    ∀ (init : ℚ), 0 ≤ init →
      0 ≤ l.foldl (fun acc e =>
        acc + (if !e.degree.isEmpty then 8 else 0) +
          (if truthyS e.institution then 6 else 0) +
          (if truthyS e.year then 6 else 0)) init := by
  induction l with
  | nil => intro init h; simpa using h
  | cons e l ih =>
    intro init h
    apply ih
    dsimp only
    split_ifs <;> linarith

theorem rawConfidence_nonneg (d : PreData) : 0 ≤ rawConfidence d := by
  unfold rawConfidence
  have h1 : (0:ℚ) ≤ if truthyS d.personal_info.full_name then 10 else 0 := by
    split_ifs <;> norm_num
  have h2 : (0:ℚ) ≤ if truthyS d.personal_info.email then 10 else 0 := by
    split_ifs <;> norm_num
  have h3 : (0:ℚ) ≤ if truthyS d.personal_info.phone then 10 else 0 := by
    split_ifs <;> norm_num
  have h4 : (0:ℚ) ≤ if d.experience.isEmpty then 0
      else min 30 (d.experience.foldl (fun acc e =>
        acc + (if !e.title.isEmpty then 5 else 0) +
          (if truthyS e.company then 3 else 0) +
          (if truthyS e.start_date || truthyS e.end_date then 2 else 0)) 0) := by
    split_ifs
    · norm_num
    · exact le_min (by norm_num) (expFold_nonneg d.experience 0 le_rfl)
  have h5 : (0:ℚ) ≤ if d.education.isEmpty then 0
      else min 20 (d.education.foldl (fun acc e =>
        acc + (if !e.degree.isEmpty then 8 else 0) +
          (if truthyS e.institution then 6 else 0) +
          (if truthyS e.year then 6 else 0)) 0) := by
    split_ifs
    · norm_num
    · exact le_min (by norm_num) (eduFold_nonneg d.education 0 le_rfl)
  have h6 : (0:ℚ) ≤ if d.skills.isEmpty then 0
      else if d.skills.length ≥ 10 then 20
      else if d.skills.length ≥ 5 then 15
      else if d.skills.length ≥ 3 then 10
      else (d.skills.length : ℚ) * 3 := by
    split_ifs <;> positivity
  have h7 : (0:ℚ) ≤ match d.summary with
      | some s => if s.length > 50 then 5 else 0
      | none => 0 := by
    cases d.summary with
    | none => norm_num
    | some s => simp only; split_ifs <;> norm_num
  have h8 : (0:ℚ) ≤ if d.languages.isEmpty then 0
      else min 5 ((d.languages.length : ℚ) * 2) := by
    split_ifs
    · norm_num
    · exact le_min (by norm_num) (by positivity)
  have h9 : (0:ℚ) ≤ if d.certifications.isEmpty then 0
      else min 5 ((d.certifications.length : ℚ) * 2) := by
    split_ifs
    · norm_num
    · exact le_min (by norm_num) (by positivity)
  linarith

theorem confidence_bounds (d : PreData) :
    0 ≤ calculate_confidence_enhanced d ∧ calculate_confidence_enhanced d ≤ 100 := by
  unfold calculate_confidence_enhanced
  have hraw := rawConfidence_nonneg d
  set score := rawConfidence d with hs
  set score' : ℚ := if score = 0 && hasAnyData d then 10 else score with hs'
  have hnn : 0 ≤ score' := by
    rw [hs']
    split_ifs <;> [norm_num; exact hraw]
  constructor
  · exact pyRound1_nonneg (le_min (by norm_num) hnn)
  · exact pyRound1_le_100 (min_le_left _ _)

end EnhancedParser

theorem rhe_zero : rhe (0 : ℚ) = 0 := by
  simpa using rhe_intCast 0

theorem pyRound1_zero : pyRound1 0 = 0 := by
  simp [pyRound1, rhe_zero]

theorem pyRound1_ten : pyRound1 10 = 10 := by
  have h : ((10 : ℚ) * 10) = ((100 : ℤ) : ℚ) := by norm_num
  simp only [pyRound1, h, rhe_intCast]
  norm_num

/-- C1: for every input text, `parse` (a total function in this embedding,
mirroring the source's catch-free body over coerced string input) returns a
profile whose `experience`, `education`, `skills`, `certifications` and
`languages` fields are lists by construction (never null), and whose
`confidence_score` lies in the closed interval `[0, 100]`. -/
theorem C1_parse_confidence_in_range (text : Str) :
    0 ≤ (EnhancedParser.parse text).confidence_score ∧
      (EnhancedParser.parse text).confidence_score ≤ 100 := by
  exact EnhancedParser.confidence_bounds _

/-- C3 counterexample: a profile whose only non-empty field is
`personal.location` has weighted-points sum zero, yet the confidence score
is 0, not the claimed minimum of 10. -/
theorem C3_counterexample_location_only :
    EnhancedParser.rawConfidence locOnlyProfile = 0 ∧
    truthyS locOnlyProfile.personal_info.location = true ∧
    EnhancedParser.calculate_confidence_enhanced locOnlyProfile = 0 := by
  have hraw : EnhancedParser.rawConfidence locOnlyProfile = 0 := by
    simp [EnhancedParser.rawConfidence, locOnlyProfile, emptyProfile, truthyS]
  have hany : EnhancedParser.hasAnyData locOnlyProfile = false := by decide
  refine ⟨hraw, by decide, ?_⟩
  unfold EnhancedParser.calculate_confidence_enhanced
  rw [hraw, hany]
  simp only [Bool.and_false, Bool.false_eq_true, if_false]
  rw [min_eq_right (by norm_num : (0:ℚ) ≤ 100)]
  exact pyRound1_zero

/-- C3 amended: the scorer returns 0 on a fully empty profile; when the
weighted-points sum is zero but one of the floor-checked fields (name,
email, phone, experience, education, skills, summary) is non-empty, the
score is forced to exactly 10; fields `location`, `linkedin` and `github`
are not consulted by the floor, so a profile whose only non-empty fields
are among them scores 0 (see the counterexample). -/
theorem C3_amended_confidence_floor (d : PreData) :
    (truthyS d.personal_info.full_name = false →
     truthyS d.personal_info.email = false →
     truthyS d.personal_info.phone = false →
     truthyS d.personal_info.location = false →
     truthyS d.personal_info.linkedin = false →
     truthyS d.personal_info.github = false →
     d.experience = [] → d.education = [] → d.skills = [] →
     truthyS d.summary = false → d.certifications = [] → d.languages = [] →
     EnhancedParser.calculate_confidence_enhanced d = 0) ∧
    (EnhancedParser.rawConfidence d = 0 → EnhancedParser.hasAnyData d = true →
     EnhancedParser.calculate_confidence_enhanced d = 10) := by
  constructor
  · intro hname hemail hphone _ _ _ hexp hedu hsk hsum hcert hlang
    have hraw : EnhancedParser.rawConfidence d = 0 := by
      unfold EnhancedParser.rawConfidence
      rw [hexp, hedu, hsk, hcert, hlang]
      have hsumm : (match d.summary with
          | some s => if s.length > 50 then (5:ℚ) else 0
          | none => 0) = 0 := by
        cases hds : d.summary with
        | none => rfl
        | some s =>
          rw [hds] at hsum
          simp only [truthyS, Option.any_some, Bool.not_eq_true'] at hsum
          have : s = [] := List.isEmpty_iff.mp (by simpa using hsum)
          subst this
          norm_num
      rw [hsumm]
      simp [hname, hemail, hphone]
    have hany : EnhancedParser.hasAnyData d = false := by
      unfold EnhancedParser.hasAnyData
      rw [hexp, hedu, hsk]
      simp [hname, hemail, hphone, hsum]
    unfold EnhancedParser.calculate_confidence_enhanced
    rw [hraw, hany]
    simp only [Bool.and_false, Bool.false_eq_true, if_false]
    rw [min_eq_right (by norm_num : (0:ℚ) ≤ 100)]
    exact pyRound1_zero
  · intro hraw hany
    unfold EnhancedParser.calculate_confidence_enhanced
    rw [hraw, hany]
    simp only [and_true, Bool.and_true]
    rw [if_pos (by simp)]
    rw [min_eq_right (by norm_num : (10:ℚ) ≤ 100)]
    exact pyRound1_ten

/-- C3 amended, witnessed: the empty profile scores 0, and a profile whose
only content is a short summary (zero weighted points) scores exactly 10. -/
theorem C3_amended_witness :
    EnhancedParser.calculate_confidence_enhanced emptyProfile = 0 ∧
    (EnhancedParser.rawConfidence summaryOnlyProfile = 0 ∧
     EnhancedParser.hasAnyData summaryOnlyProfile = true ∧
     EnhancedParser.calculate_confidence_enhanced summaryOnlyProfile = 10) := by
  constructor
  · exact (C3_amended_confidence_floor emptyProfile).1 (by decide) (by decide) (by decide)
      (by decide) (by decide) (by decide) rfl rfl rfl (by decide) rfl rfl
  · have hraw : EnhancedParser.rawConfidence summaryOnlyProfile = 0 := by
      simp [EnhancedParser.rawConfidence, summaryOnlyProfile, emptyProfile, truthyS]
    exact ⟨hraw, by decide, (C3_amended_confidence_floor summaryOnlyProfile).2 hraw (by decide)⟩

/-- C4 counterexample: with an empty education list and a job text naming
no degree keyword, the education component returns 0.0, not the claimed
default of 0.8 (the empty-list early return precedes the no-keyword
default). -/
theorem C4_counterexample_empty_education :
    (∀ kw ∈ MatchingService.degree_keywords, pyIn kw (strL "python job") = false) ∧
    (MatchingService.match_education [] (strL "python job")).score = 0 ∧
    (MatchingService.match_education [] (strL "python job")).score ≠ 8/10 := by
  refine ⟨by decide, ?_, ?_⟩
  · rw [MatchingService.match_education]
    norm_num
  · rw [MatchingService.match_education]
    norm_num

/-- C4 amended: the education component returns 0.0 whenever the education
list is empty (regardless of the job text); otherwise it returns 0.8 when
the job text contains no degree keyword, and else 1.0 or 0.3 according to
whether some resume degree mentions the first degree keyword found in the
job text (list order: bachelor, master, phd, doctorate, degree, substring
containment on the lowered degree). -/
theorem C4_amended_education_match (education : List EduEntry) (job_desc : Str) :
    (education = [] → (MatchingService.match_education education job_desc).score = 0) ∧
    (education ≠ [] →
      (MatchingService.degree_keywords.find? (fun kw => pyIn kw job_desc) = none →
        (MatchingService.match_education education job_desc).score = 8/10) ∧
      (∀ kw, MatchingService.degree_keywords.find? (fun kw => pyIn kw job_desc) = some kw →
        (MatchingService.match_education education job_desc).score =
          if education.any (fun edu => pyIn kw (pyLower edu.degree)) then 1 else 3/10)) := by
  constructor
  · intro h
    subst h
    rw [MatchingService.match_education]
    norm_num
  · intro hne
    have hni : education.isEmpty = false := by
      cases education with
      | nil => exact absurd rfl hne
      | cons e l => rfl
    constructor
    · intro hfind
      rw [MatchingService.match_education, if_neg (by simp [hni]), hfind]
    · intro kw hfind
      rw [MatchingService.match_education, if_neg (by simp [hni]), hfind]

/-- C4 amended, witnessed at concrete inputs: empty education scores 0;
one education entry with no degree keyword in the job scores 0.8; and with
the keyword `degree` in the job and an entry mentioning it, 1.0. -/
theorem C4_amended_witness :
    (MatchingService.match_education [] []).score = 0 ∧
    (MatchingService.match_education [{ degree := strL "BS" }] (strL "any job")).score = 8/10 ∧
    (MatchingService.match_education [{ degree := strL "Bachelor Degree" }]
        (strL "needs a degree")).score = 1 := by
  refine ⟨(C4_amended_education_match [] []).1 rfl, ?_, ?_⟩
  · exact ((C4_amended_education_match _ _).2 (by simp)).1 (by decide)
  · rw [((C4_amended_education_match _ _).2 (by simp)).2 (strL "degree") (by decide)]
    rw [if_pos (by decide)]

theorem MatchingService.match_skills_bounds (resume_skills : List Str) (job_desc : Str) :
    0 ≤ (MatchingService.match_skills resume_skills job_desc).score ∧
      (MatchingService.match_skills resume_skills job_desc).score ≤ 1 := by
  rw [MatchingService.match_skills]
  dsimp only
  constructor
  · apply pyRound2_nonneg
    apply le_min ?_ (by norm_num)
    split_ifs
    · norm_num
    · exact div_nonneg (Nat.cast_nonneg _) (Nat.cast_nonneg _)
  · exact pyRound2_le_one (min_le_right _ _)

/-- C9: the skill-match score always lies in `[0, 1]`, and when the job
text contains none of the reference vocabulary terms the required list is
empty and the score is exactly 0.0 (the guard avoids the division). -/
theorem C9_skill_match_bounds (resume_skills : List Str) (job_desc : Str) :
    (0 ≤ (MatchingService.match_skills resume_skills job_desc).score ∧
      (MatchingService.match_skills resume_skills job_desc).score ≤ 1) ∧
    ((∀ v ∈ MatchingService.common_skills, pyIn v job_desc = false) →
      (MatchingService.match_skills resume_skills job_desc).required_skills = [] ∧
      (MatchingService.match_skills resume_skills job_desc).score = 0) := by
  constructor
  · exact MatchingService.match_skills_bounds resume_skills job_desc
  · intro hnone
    have hreq : MatchingService.common_skills.filter (fun skill => pyIn skill job_desc) = [] := by
      apply List.filter_eq_nil_iff.mpr
      intro v hv
      simp [hnone v hv]
    refine ⟨?_, ?_⟩
    · rw [MatchingService.match_skills]
      dsimp only
      exact hreq
    · rw [MatchingService.match_skills]
      dsimp only
      rw [hreq]
      rw [if_pos (by simp)]
      rw [min_eq_left (by norm_num : (0:ℚ) ≤ 1)]
      simp [pyRound2, rhe_zero]

/-- C9 witness: with resume skill `python` and a job text containing no
vocabulary term, the required list is empty and the score is 0. -/
theorem C9_skill_match_witness :
    (MatchingService.match_skills [strL "python"] (strL "zzz")).required_skills = [] ∧
    (MatchingService.match_skills [strL "python"] (strL "zzz")).score = 0 := by
  exact (C9_skill_match_bounds [strL "python"] (strL "zzz")).2 (by decide)

/-- C5 counterexample: with the education component failing, the title
component (computed score 0.7) never runs — its score stays at the default
0.0 — and no explanation for the failure is attached to the detailed
scores; the single enclosing `try/except` aborts all remaining components. -/
theorem C5_counterexample_no_isolation :
    (MatchingService.calculate_relevancy_with
        (.ok { score := 1/2, matched_skills := [], required_skills := [],
               missing_skills := [] })
        (.ok { score := 3/10, total_years := none, required_years := none,
               matched_positions := 0, total_positions := 0 })
        (.error "education scorer raised")
        (.ok { score := 7/10, matched_titles := [], relevant_keywords := none })
        none).title_match = 0 ∧
    (MatchingService.calculate_relevancy_with
        (.ok { score := 1/2, matched_skills := [], required_skills := [],
               missing_skills := [] })
        (.ok { score := 3/10, total_years := none, required_years := none,
               matched_positions := 0, total_positions := 0 })
        (.error "education scorer raised")
        (.ok { score := 7/10, matched_titles := [], relevant_keywords := none })
        none).det_education = none ∧
    ((7:ℚ)/10 ≠ 0) := by
  refine ⟨rfl, rfl, by norm_num⟩

/-- C5 amended: the scoring body sits in one `try/except`, so a failing
component keeps every score assigned before it, leaves the failing and all
later components at the default 0.0, attaches nothing to the detailed
scores for them, and computes no overall score or summary; the call still
returns normally. -/
theorem C5_amended_single_try (a : MatchingService.SkillMatchRes)
    (b : MatchingService.ExpMatchRes) (c : MatchingService.EduMatchRes)
    (d : MatchingService.TitleMatchRes) (e : MatchingService.PyErr)
    (sem : Option ℚ) :
    MatchingService.calculate_relevancy_with (.error e) (.ok b) (.ok c) (.ok d) sem
      = ({} : MatchingService.Scores) ∧
    MatchingService.calculate_relevancy_with (.ok a) (.error e) (.ok c) (.ok d) sem
      = { skill_match := a.score, det_skill := some a } ∧
    MatchingService.calculate_relevancy_with (.ok a) (.ok b) (.error e) (.ok d) sem
      = { skill_match := a.score, det_skill := some a,
          experience_match := b.score, det_experience := some b } ∧
    MatchingService.calculate_relevancy_with (.ok a) (.ok b) (.ok c) (.error e) sem
      = { skill_match := a.score, det_skill := some a,
          experience_match := b.score, det_experience := some b,
          education_match := c.score, det_education := some c } := by
  exact ⟨rfl, rfl, rfl, rfl⟩

namespace MatchingService

theorem years_from_exp_nonneg (nowYear : ℤ) (e : ExpEntry) :
    0 ≤ calculate_years_from_exp nowYear e := by
  unfold calculate_years_from_exp
  cases extract_year e.start_date with
  | none => simp
  | some sy =>
    cases hend : (if e.end_date != some (strL "Present") then extract_year e.end_date
        else some nowYear) with
    | none => simp [hend]
    | some ey =>
      simp only [hend]
      have : (0:ℤ) ≤ max 0 (ey - sy) := le_max_left _ _
      exact_mod_cast this

theorem match_experience_bounds (nowYear : ℤ) (experience : List ExpEntry)
    (job_desc : Str) :
    0 ≤ (match_experience nowYear experience job_desc).score ∧
      (match_experience nowYear experience job_desc).score ≤ 1 := by
  rw [match_experience]
  split
  · constructor <;> norm_num
  · dsimp only
    rename_i hne
    have hne' : experience ≠ [] := by
      intro hcontra
      subst hcontra
      exact hne rfl
    have hlen1 : 1 ≤ experience.length := by
      cases experience with
      | nil => exact absurd rfl hne'
      | cons x l => simp
    have htot : 0 ≤ ((experience.map (calculate_years_from_exp nowYear)).sum : ℚ) := by
      apply List.sum_nonneg
      intro x hx
      obtain ⟨e, _, rfl⟩ := List.mem_map.mp hx
      exact years_from_exp_nonneg nowYear e
    have hreq : (0:ℤ) ≤ (match reSearch2 years_g1 years_tail job_desc with
        | some r => ((digitsToNat ((job_desc.drop r.1).take r.2.1) : ℤ))
        | none => 0) := by
      cases reSearch2 years_g1 years_tail job_desc with
      | none => simp
      | some r => simp
    set req : ℤ := (match reSearch2 years_g1 years_tail job_desc with
        | some r => ((digitsToNat ((job_desc.drop r.1).take r.2.1) : ℤ))
        | none => 0) with hreqdef
    set total : ℚ := (experience.map (calculate_years_from_exp nowYear)).sum with htotdef
    have hscore : 0 ≤ (if req = 0 then (8:ℚ)/10 else min (total / (req : ℚ)) 1) ∧
        (if req = 0 then (8:ℚ)/10 else min (total / (req : ℚ)) 1) ≤ 1 := by
      split_ifs with h0
      · constructor <;> norm_num
      · constructor
        · apply le_min _ (by norm_num)
          exact div_nonneg htot (by exact_mod_cast hreq)
        · exact min_le_right _ _
    have hrel : 0 ≤ ((experience.filter fun e =>
          (["engineer", "developer", "manager", "analyst", "designer"].map strL).any
            fun kw => pyIn kw (pyLower e.title)).length : ℚ) /
          ((max experience.length 1 : ℕ) : ℚ) ∧
        ((experience.filter fun e =>
          (["engineer", "developer", "manager", "analyst", "designer"].map strL).any
            fun kw => pyIn kw (pyLower e.title)).length : ℚ) /
          ((max experience.length 1 : ℕ) : ℚ) ≤ 1 := by
      constructor
      · exact div_nonneg (Nat.cast_nonneg _) (Nat.cast_nonneg _)
      · rw [div_le_one (by exact_mod_cast lt_of_lt_of_le one_pos (le_max_right _ _))]
        have hfl : (experience.filter fun e =>
            (["engineer", "developer", "manager", "analyst", "designer"].map strL).any
              fun kw => pyIn kw (pyLower e.title)).length ≤ experience.length :=
          List.length_filter_le _ _
        have : experience.length ≤ max experience.length 1 := le_max_left _ _
        exact_mod_cast le_trans hfl this
    constructor
    · apply pyRound2_nonneg
      have := hscore.1
      have := hrel.1
      positivity
    · apply pyRound2_le_one
      nlinarith [hscore.1, hscore.2, hrel.1, hrel.2]

theorem match_education_bounds (education : List EduEntry) (job_desc : Str) :
    0 ≤ (match_education education job_desc).score ∧
      (match_education education job_desc).score ≤ 1 := by
  rw [match_education]
  split
  · constructor <;> norm_num
  · cases degree_keywords.find? (fun keyword => pyIn keyword job_desc) with
    | none => constructor <;> norm_num
    | some kw =>
      dsimp only
      split_ifs <;> constructor <;> norm_num

theorem match_titles_bounds (job_titles : List Str) (job_desc : Str) :
    0 ≤ (match_titles job_titles job_desc).score ∧
      (match_titles job_titles job_desc).score ≤ 1 := by
  rw [match_titles]
  split
  · constructor <;> norm_num
  · dsimp only
    rename_i hne
    constructor
    · exact pyRound2_nonneg (div_nonneg (Nat.cast_nonneg _) (Nat.cast_nonneg _))
    · apply pyRound2_le_one
      rw [div_le_one (by exact_mod_cast lt_of_lt_of_le one_pos (le_max_right _ _))]
      have hfl := List.length_filter_le (fun title =>
        (title_keywords.filter fun kw => pyIn kw job_desc).any fun kw => pyIn kw title)
        job_titles
      have : job_titles.length ≤ max job_titles.length 1 := le_max_left _ _
      exact_mod_cast le_trans hfl this

end MatchingService

/-- C6: with no semantic backend, the overall score is exactly the fixed
weighted sum of the four component scores, each component score lies in
`[0, 1]`, and hence so does the overall score; with a semantic backend
available, the overall score is the base weighted sum times 0.7 plus the
semantic score times 0.3. -/
theorem C6_overall_weighted_blend (nowYear : ℤ) (d : PreData) (job : Str) :
    ((MatchingService.calculate_relevancy_score nowYear d job none).overall_score =
      (MatchingService.calculate_relevancy_score nowYear d job none).skill_match * (40/100) +
      (MatchingService.calculate_relevancy_score nowYear d job none).experience_match * (30/100) +
      (MatchingService.calculate_relevancy_score nowYear d job none).education_match * (15/100) +
      (MatchingService.calculate_relevancy_score nowYear d job none).title_match * (15/100)) ∧
    (0 ≤ (MatchingService.calculate_relevancy_score nowYear d job none).skill_match ∧
      (MatchingService.calculate_relevancy_score nowYear d job none).skill_match ≤ 1) ∧
    (0 ≤ (MatchingService.calculate_relevancy_score nowYear d job none).experience_match ∧
      (MatchingService.calculate_relevancy_score nowYear d job none).experience_match ≤ 1) ∧
    (0 ≤ (MatchingService.calculate_relevancy_score nowYear d job none).education_match ∧
      (MatchingService.calculate_relevancy_score nowYear d job none).education_match ≤ 1) ∧
    (0 ≤ (MatchingService.calculate_relevancy_score nowYear d job none).title_match ∧
      (MatchingService.calculate_relevancy_score nowYear d job none).title_match ≤ 1) ∧
    (0 ≤ (MatchingService.calculate_relevancy_score nowYear d job none).overall_score ∧
      (MatchingService.calculate_relevancy_score nowYear d job none).overall_score ≤ 1) ∧
    (∀ sem : ℚ,
      (MatchingService.calculate_relevancy_score nowYear d job (some sem)).overall_score =
        (MatchingService.calculate_relevancy_score nowYear d job none).overall_score * (7/10) +
          sem * (3/10)) := by
  have hskill : (MatchingService.calculate_relevancy_score nowYear d job none).skill_match =
      (MatchingService.match_skills (d.skills.map pyLower) (pyLower job)).score := rfl
  have hexp : (MatchingService.calculate_relevancy_score nowYear d job none).experience_match =
      (MatchingService.match_experience nowYear d.experience (pyLower job)).score := rfl
  have hedu : (MatchingService.calculate_relevancy_score nowYear d job none).education_match =
      (MatchingService.match_education d.education (pyLower job)).score := rfl
  have htitle : (MatchingService.calculate_relevancy_score nowYear d job none).title_match =
      (MatchingService.match_titles
        ((d.experience.filter fun e => !e.title.isEmpty).map fun e => pyLower e.title)
        (pyLower job)).score := rfl
  have hformula : (MatchingService.calculate_relevancy_score nowYear d job none).overall_score =
      (MatchingService.calculate_relevancy_score nowYear d job none).skill_match * (40/100) +
      (MatchingService.calculate_relevancy_score nowYear d job none).experience_match * (30/100) +
      (MatchingService.calculate_relevancy_score nowYear d job none).education_match * (15/100) +
      (MatchingService.calculate_relevancy_score nowYear d job none).title_match * (15/100) := rfl
  have hb1 := MatchingService.match_skills_bounds (d.skills.map pyLower) (pyLower job)
  have hb2 := MatchingService.match_experience_bounds nowYear d.experience (pyLower job)
  have hb3 := MatchingService.match_education_bounds d.education (pyLower job)
  have hb4 := MatchingService.match_titles_bounds
    ((d.experience.filter fun e => !e.title.isEmpty).map fun e => pyLower e.title)
    (pyLower job)
  rw [hskill] at hformula ⊢
  rw [hexp] at hformula ⊢
  rw [hedu] at hformula ⊢
  rw [htitle] at hformula ⊢
  refine ⟨hformula, hb1, hb2, hb3, hb4, ?_, fun sem => rfl⟩
  rw [hformula]
  constructor
  · nlinarith [hb1.1, hb2.1, hb3.1, hb4.1]
  · nlinarith [hb1.1, hb1.2, hb2.1, hb2.2, hb3.1, hb3.2, hb4.1, hb4.2]

theorem pySetList_nodup_aux :
    ∀ (l : List Str) (acc : List Str), acc.Nodup →
      (l.foldl (fun acc x => if acc.contains x then acc else acc ++ [x]) acc).Nodup := by
  intro l
  induction l with
  | nil => intro acc h; simpa using h
  | cons x l ih =>
    intro acc hacc
    simp only [List.foldl_cons]
    by_cases hc : acc.contains x
    · rw [if_pos hc]
      exact ih acc hacc
    · rw [if_neg hc]
      apply ih
      have hx : x ∉ acc := by
        intro hmem
        exact hc (List.elem_iff.mpr hmem)
      simp [List.nodup_append, hacc, hx]

theorem pySetList_nodup (l : List Str) : (EnhancedParser.pySetList l).Nodup :=
  pySetList_nodup_aux l [] List.nodup_nil

/-- C8 counterexample: on a skills line `Zig, ZIG`, the extractor returns
both `Zig` and `ZIG` — two entries equal ignoring case — because the
verbatim-token fallback deduplicates by exact string equality only. -/
theorem C8_counterexample_case_insensitive_dup :
    strL "Zig" ∈ EnhancedParser.extract_skills_enhanced zigText zigText ∧
    strL "ZIG" ∈ EnhancedParser.extract_skills_enhanced zigText zigText ∧
    pyLower (strL "Zig") = pyLower (strL "ZIG") ∧
    strL "Zig" ≠ strL "ZIG" := by
  refine ⟨by decide, by decide, by decide, by decide⟩

/-- C8 amended: the final `list(set(...))` makes the skills list free of
exact duplicates (entries differing only in case may both appear, and the
set's iteration order is implementation-defined rather than
first-appearance order). -/
theorem C8_amended_skills_exact_nodup (cleaned_text original_text : Str) :
    (EnhancedParser.extract_skills_enhanced cleaned_text original_text).Nodup :=
  pySetList_nodup _

/-- C2 (code bug): on the specification's end-to-end scenario text, the
parser extracts the email but returns `None` for the phone — the phone
patterns require either a country code (11+ digits) or a bare 10-digit
run, and the 10-character validation rejects every separator-formatted
match, so `555-123-4567` is never produced. -/
theorem C2_phone_not_extracted :
    (EnhancedParser.parse c2text).personal_info.phone = none ∧
    (EnhancedParser.parse c2text).personal_info.email = some (strL "john@x.com") := by
  exact ⟨by decide, by decide⟩

/-- C10: any phone number in a parsed profile is a ten-character all-digit
string, does not start with `19` or `20`, and occurs in the source text as
a slice not adjacent to another digit; in particular a separator-formatted
number such as `(555) 123-4567` is never returned. -/
theorem C10_phone_shape (text s : Str)
    (h : (EnhancedParser.parse text).personal_info.phone = some s) :
    s.length = 10 ∧ (∀ c ∈ s, c.isDigit = true) ∧
    pyStarts (strL "19") s = false ∧ pyStarts (strL "20") s = false ∧
    ∃ j, (text.drop j).take 10 = s ∧
      (∀ c, j ≠ 0 → text.get? (j - 1) = some c → c.isDigit = false) ∧
      (∀ c, text.get? (j + 10) = some c → c.isDigit = false) :=
  EnhancedParser.extract_phone_spec text s h

/-- C10 witness: on a text containing a bare ten-digit run, the parser
returns it and the shape theorem applies. -/
theorem C10_phone_shape_witness :
    (EnhancedParser.parse (strL "call 5551234567 now")).personal_info.phone =
      some (strL "5551234567") ∧
    (strL "5551234567").length = 10 ∧
    (∀ c ∈ strL "5551234567", c.isDigit = true) := by
  have h : (EnhancedParser.parse (strL "call 5551234567 now")).personal_info.phone =
      some (strL "5551234567") := by decide
  obtain ⟨h1, h2, _⟩ := C10_phone_shape _ _ h
  exact ⟨h, h1, h2⟩

/-! ## Characterizing whole-word keyword matches (C7) -/

theorem litCI_matches :
    ∀ (kw : Str) (prev : Option Char) (cs : Str),
      (RE.litCI kw).matches prev cs =
        if startsCI kw cs then [kw.length] else [] := by
  intro kw
  induction kw with
  | nil =>
    intro prev cs
    simp [RE.litCI, RE.cat, RE.matches, startsCI]
  | cons c kw ih =>
    intro prev cs
    cases cs with
    | nil =>
      simp only [RE.litCI, List.map_cons, RE.cat, List.foldr_cons, RE.matches, startsCI]
      rfl
    | cons d cs' =>
      simp only [RE.litCI, List.map_cons, RE.cat, List.foldr_cons, RE.matches]
      by_cases hd : (chCI c).test d
      · rw [if_pos hd]
        have hd' : (d == lowc c || d == upc c) = true := by
          simpa [chCI, CC.test] using hd
        simp only [List.flatMap_cons, List.flatMap_nil, List.append_nil]
        have hlast : lastChar prev (d :: cs') 1 = some d := by
          simp [lastChar]
        rw [hlast]
        have hdrop : (d :: cs').drop 1 = cs' := rfl
        rw [hdrop]
        have := ih (some d) cs'
        simp only [RE.litCI, RE.cat] at this
        rw [this]
        by_cases hs : startsCI kw cs'
        · rw [if_pos hs]
          rw [if_pos (by simp [startsCI, hd', hs])]
          simp [Nat.add_comm]
        · rw [if_neg hs]
          rw [if_neg (by simp [startsCI, hs])]
          rfl
      · rw [if_neg hd]
        have hd' : (d == lowc c || d == upc c) = false := by
          have : (chCI c).test d = false := by
            rw [Bool.eq_false_iff]
            exact hd
          simpa [chCI, CC.test] using this
        rw [if_neg (by simp [startsCI, hd'])]
        rfl

theorem seq_wb_eps_matches (prev : Option Char) (cs : Str) :
    (RE.seq RE.wb RE.eps).matches prev cs =
      if isWordOpt prev != isWordOpt cs.head? then [0] else [] := by
  by_cases h : isWordOpt prev != isWordOpt cs.head?
  · rw [if_pos h]
    show ((RE.wb.matches prev cs).flatMap _) = [0]
    rw [show RE.wb.matches prev cs = [0] from by simp [RE.matches, h]]
    rfl
  · rw [if_neg h]
    show ((RE.wb.matches prev cs).flatMap _) = []
    rw [show RE.wb.matches prev cs = [] from by simp [RE.matches, h]]
    rfl

theorem wwPat_matches (kw : Str) (prev : Option Char) (cs : Str) :
    (RE.cat [RE.wb, RE.litCI kw, RE.wb]).matches prev cs =
      if (isWordOpt prev != isWordOpt cs.head?) && startsCI kw cs &&
         (isWordOpt (lastChar prev cs kw.length) !=
           isWordOpt ((cs.drop kw.length).head?))
      then [kw.length] else [] := by
  simp only [RE.cat, List.foldr_cons, List.foldr_nil]
  rw [show (RE.seq RE.wb (RE.seq (RE.litCI kw) (RE.seq RE.wb RE.eps))).matches prev cs =
    (RE.wb.matches prev cs).flatMap (fun n =>
      (((RE.seq (RE.litCI kw) (RE.seq RE.wb RE.eps))).matches (lastChar prev cs n)
        (cs.drop n)).map (n + ·)) from rfl]
  by_cases h1 : isWordOpt prev != isWordOpt cs.head?
  · rw [show RE.wb.matches prev cs = [0] by simp [RE.matches, h1]]
    simp only [List.flatMap_cons, List.flatMap_nil, List.append_nil]
    have hl0 : lastChar prev cs 0 = prev := by simp [lastChar]
    rw [hl0, List.drop_zero]
    rw [show (RE.seq (RE.litCI kw) (RE.seq RE.wb RE.eps)).matches prev cs =
      ((RE.litCI kw).matches prev cs).flatMap (fun n =>
        ((RE.seq RE.wb RE.eps).matches (lastChar prev cs n) (cs.drop n)).map (n + ·))
      from rfl]
    rw [litCI_matches]
    by_cases h2 : startsCI kw cs
    · rw [if_pos h2]
      simp only [List.flatMap_cons, List.flatMap_nil, List.append_nil]
      by_cases h3 : isWordOpt (lastChar prev cs kw.length) !=
          isWordOpt ((cs.drop kw.length).head?)
      · rw [seq_wb_eps_matches, if_pos h3]
        have h3' := h3
        simp only [List.head?_drop] at h3'
        rw [if_pos (by simp [h1, h2, h3'])]
        simp
      · rw [seq_wb_eps_matches, if_neg h3]
        have h3' := h3
        simp only [List.head?_drop] at h3'
        rw [if_neg (by simp [h1, h2, h3'])]
        simp
    · rw [if_neg h2]
      simp only [Bool.not_eq_true] at h2
      simp [h1, h2]
  · rw [show RE.wb.matches prev cs = [] by simp [RE.matches, h1]]
    simp only [Bool.not_eq_true] at h1
    simp [h1]

theorem searchFrom_precise {r : RE} (text : Str) :
    ∀ (cs : Str) (i : Nat), cs = text.drop i → i ≤ text.length →
      (∀ j n, searchFrom r (prevAt text i) cs i = some (j, n) →
        i ≤ j ∧ j ≤ text.length ∧ n ∈ r.matches (prevAt text j) (text.drop j) ∧
        ∀ m, i ≤ m → m < j → r.matches (prevAt text m) (text.drop m) = []) ∧
      (searchFrom r (prevAt text i) cs i = none →
        ∀ m, i ≤ m → m ≤ text.length → r.matches (prevAt text m) (text.drop m) = []) := by
  intro cs
  induction cs with
  | nil =>
    intro i hcs hi
    have hilen : i = text.length := by
      have := congrArg List.length hcs
      simp [List.length_drop] at this
      omega
    constructor
    · intro j n h
      rw [searchFrom] at h
      cases hm : (r.matches (prevAt text i) []).head? with
      | none => rw [hm] at h; simp at h
      | some m =>
        rw [hm] at h
        simp only [Option.map_some', Option.some.injEq, Prod.mk.injEq] at h
        obtain ⟨rfl, rfl⟩ := h
        refine ⟨le_refl _, by omega, ?_, by omega⟩
        rw [← hcs]
        exact mem_of_head?_eq hm
    · intro h m him hmlen
      have hmi : m = i := by omega
      subst hmi
      rw [searchFrom] at h
      cases hm : (r.matches (prevAt text m) []).head? with
      | none =>
        rw [← hcs]
        exact List.head?_eq_none_iff.mp hm
      | some x => rw [hm] at h; simp at h
  | cons c rest ih =>
    intro i hcs hi
    have hilt : i < text.length := by
      by_contra hge
      have : text.drop i = [] := List.drop_eq_nil_of_le (by omega)
      rw [this] at hcs
      cases hcs
    have hrest : rest = text.drop (i + 1) := by
      have h1 : text.drop (i + 1) = (text.drop i).drop 1 := by
        rw [List.drop_drop]
      rw [h1, ← hcs]
      rfl
    have hprev : prevAt text (i + 1) = some c := by
      show text.get? i = some c
      rw [List.get?_eq_getElem?, ← List.head?_drop, ← hcs]
      rfl
    constructor
    · intro j n h
      rw [searchFrom] at h
      cases hm : (r.matches (prevAt text i) (c :: rest)).head? with
      | some m =>
        rw [hm] at h
        simp only [Option.some.injEq, Prod.mk.injEq] at h
        obtain ⟨rfl, rfl⟩ := h
        refine ⟨le_refl _, by omega, ?_, by omega⟩
        rw [← hcs]
        exact mem_of_head?_eq hm
      | none =>
        rw [hm] at h
        rw [← hprev] at h
        obtain ⟨h1, h2, h3, h4⟩ := ((ih (i + 1) hrest (by omega)).1) j n h
        refine ⟨by omega, h2, h3, ?_⟩
        intro m him hmj
        rcases Nat.eq_or_lt_of_le him with rfl | hlt
        · rw [← hcs]
          exact List.head?_eq_none_iff.mp hm
        · exact h4 m (by omega) hmj
    · intro h m him hmlen
      rw [searchFrom] at h
      cases hm : (r.matches (prevAt text i) (c :: rest)).head? with
      | some x => rw [hm] at h; simp at h
      | none =>
        rw [hm] at h
        rw [← hprev] at h
        rcases Nat.eq_or_lt_of_le him with rfl | hlt
        · rw [← hcs]
          exact List.head?_eq_none_iff.mp hm
        · exact ((ih (i + 1) hrest (by omega)).2) h m (by omega) hmlen

theorem reSearch_precise_some {r : RE} {text : Str} {j n : Nat}
    (h : reSearch r text = some (j, n)) :
    j ≤ text.length ∧ n ∈ r.matches (prevAt text j) (text.drop j) ∧
      ∀ m, m < j → r.matches (prevAt text m) (text.drop m) = [] := by
  have hpre : prevAt text 0 = none := rfl
  have := ((searchFrom_precise text text 0 (by simp) (by simp)).1) j n (by
    rw [hpre]
    exact h)
  exact ⟨this.2.1, this.2.2.1, fun m hm => this.2.2.2 m (by omega) hm⟩

theorem reSearch_precise_none {r : RE} {text : Str}
    (h : reSearch r text = none) :
    ∀ m, m ≤ text.length → r.matches (prevAt text m) (text.drop m) = [] := by
  have hpre : prevAt text 0 = none := rfl
  intro m hm
  exact ((searchFrom_precise text text 0 (by simp) (by simp)).2) (by
    rw [hpre]
    exact h) m (by omega) hm

theorem occursAt_iff_matches (kw text : Str) (hkw : kw ≠ []) (j : Nat) :
    occursAt kw text j ↔
      (RE.cat [RE.wb, RE.litCI kw, RE.wb]).matches (prevAt (pyLower text) j)
        ((pyLower text).drop j) ≠ [] := by
  rw [wwPat_matches]
  have hget1 : (pyLower text).get? j = ((pyLower text).drop j).head? := by
    rw [List.get?_eq_getElem?, List.head?_drop]
  have hget2 : (pyLower text).get? (j + kw.length) =
      (((pyLower text).drop j).drop kw.length).head? := by
    rw [List.get?_eq_getElem?, List.drop_drop, List.head?_drop]
  have hlast : lastChar (prevAt (pyLower text) j) ((pyLower text).drop j) kw.length =
      (((pyLower text).drop j).take kw.length).getLast? := by
    unfold lastChar
    rw [if_neg (fun h => hkw (List.length_eq_zero.mp h))]
  constructor
  · rintro ⟨h1, h2, h3⟩
    rw [if_pos]
    · simp
    · simp only [Bool.and_eq_true, bne_iff_ne]
      refine ⟨⟨?_, h1⟩, ?_⟩
      · rw [← hget1]
        exact h2
      · rw [hlast, ← hget2]
        exact h3
  · intro hne
    by_cases hc : ((isWordOpt (prevAt (pyLower text) j) !=
        isWordOpt ((pyLower text).drop j).head?) &&
        startsCI kw ((pyLower text).drop j) &&
        (isWordOpt (lastChar (prevAt (pyLower text) j) ((pyLower text).drop j)
          kw.length) !=
          isWordOpt (((pyLower text).drop j).drop kw.length).head?)) = true
    · simp only [Bool.and_eq_true, bne_iff_ne] at hc
      refine ⟨hc.1.2, ?_, ?_⟩
      · rw [hget1]
        exact hc.1.1
      · rw [hget2, ← hlast]
        exact hc.2
    · rw [if_neg hc] at hne
      exact absurd rfl hne

theorem occursAt_lt_length {kw text : Str} (hkw : kw ≠ []) {j : Nat}
    (h : occursAt kw text j) : j < text.length := by
  obtain ⟨h1, -, -⟩ := h
  by_contra hge
  have hlen : (pyLower text).length = text.length := List.length_map _ _
  have hdrop : (pyLower text).drop j = [] := List.drop_eq_nil_of_le (by omega)
  rw [hdrop] at h1
  cases kw with
  | nil => exact hkw rfl
  | cons a as => simp [startsCI] at h1

theorem findSome?_split {α β : Type} {f : α → Option β} :
    ∀ (l : List α) (b : β), l.findSome? f = some b →
      ∃ pre a post, l = pre ++ a :: post ∧ f a = some b ∧
        ∀ x ∈ pre, f x = none := by
  intro l
  induction l with
  | nil => intro b h; simp [List.findSome?] at h
  | cons a l ih =>
    intro b h
    rw [List.findSome?_cons] at h
    cases hfa : f a with
    | some c =>
      rw [hfa] at h
      simp only [Option.some.injEq] at h
      subst h
      exact ⟨[], a, l, rfl, hfa, by simp⟩
    | none =>
      rw [hfa] at h
      obtain ⟨pre, x, post, hsplit, hfx, hpre⟩ := ih b h
      refine ⟨a :: pre, x, post, by rw [hsplit]; rfl, hfx, ?_⟩
      intro y hy
      rcases List.mem_cons.mp hy with rfl | hy'
      · exact hfa
      · exact hpre y hy'

theorem find_section_eq (text : Str) (keywords : List Str) :
    EnhancedParser.find_section text keywords =
      if text.isEmpty then none
      else keywords.findSome? (sectionForKw text) := rfl

theorem wholeWord_not_in_nil (kw : Str) : ¬ wholeWordOccurs kw [] := by
  rintro ⟨hkw, j, h1, -, -⟩
  have hd : (pyLower ([] : Str)).drop j = [] := by simp [pyLower]
  rw [hd] at h1
  cases kw with
  | nil => exact hkw rfl
  | cons a as => simp [startsCI] at h1

theorem sectionForKw_none_iff (text kw : Str) :
    sectionForKw text kw = none ↔ ¬ wholeWordOccurs kw text := by
  unfold sectionForKw
  by_cases hkw : kw = []
  · subst hkw
    simp [wholeWordOccurs]
  · rw [if_neg (by simpa [List.isEmpty_iff] using hkw)]
    cases hsearch : reSearch (RE.cat [RE.wb, RE.litCI kw, RE.wb]) (pyLower text) with
    | none =>
      simp only [true_iff]
      rintro ⟨hkw', j, hocc⟩
      have hj : j < text.length := occursAt_lt_length hkw' hocc
      have hmatches := (occursAt_iff_matches kw text hkw' j).mp hocc
      exact hmatches (reSearch_precise_none hsearch j
        (by simp only [pyLower, List.length_map]; omega))
    | some jn =>
      obtain ⟨j, n⟩ := jn
      obtain ⟨hjlen, hmem, hmin⟩ := reSearch_precise_some hsearch
      have hocc : occursAt kw text j :=
        (occursAt_iff_matches kw text hkw j).mpr (List.ne_nil_of_mem hmem)
      constructor
      · intro h
        dsimp only at h
        cases hend : reSearch EnhancedParser.end_pattern (text.drop (j + n)) with
        | none => simp only [hend] at h; exact Option.noConfusion h
        | some em => simp only [hend] at h; exact Option.noConfusion h
      · intro h
        exact (h ⟨hkw, j, hocc⟩).elim

theorem sectionForKw_some (text kw s : Str)
    (h : sectionForKw text kw = some s) :
    kw ≠ [] ∧ ∃ j, occursAt kw text j ∧ (∀ m < j, ¬ occursAt kw text m) ∧
      (reSearch EnhancedParser.end_pattern (text.drop (j + kw.length)) = none →
        s = (text.drop (j + kw.length)).take 2000) ∧
      (∀ e en, reSearch EnhancedParser.end_pattern (text.drop (j + kw.length)) =
          some (e, en) → s = (text.drop (j + kw.length)).take e) := by
  unfold sectionForKw at h
  by_cases hkw : kw = []
  · rw [if_pos (by simp [hkw])] at h
    cases h
  · rw [if_neg (by simpa [List.isEmpty_iff] using hkw)] at h
    refine ⟨hkw, ?_⟩
    cases hsearch : reSearch (RE.cat [RE.wb, RE.litCI kw, RE.wb]) (pyLower text) with
    | none => rw [hsearch] at h; cases h
    | some jn =>
      obtain ⟨j, n⟩ := jn
      rw [hsearch] at h
      obtain ⟨hjlen, hmem, hmin⟩ := reSearch_precise_some hsearch
      have hn : n = kw.length := by
        rw [wwPat_matches] at hmem
        split at hmem
        · simpa using hmem
        · simp at hmem
      subst hn
      dsimp only at h
      refine ⟨j, (occursAt_iff_matches kw text hkw j).mpr (List.ne_nil_of_mem hmem),
        ?_, ?_, ?_⟩
      · intro m hm hocc
        have hmatches := (occursAt_iff_matches kw text hkw m).mp hocc
        exact hmatches (hmin m hm)
      · intro hend
        rw [hend] at h
        injection h with h'
        exact h'.symm
      · intro e en hend
        rw [hend] at h
        injection h with h'
        exact h'.symm

/-- C7 (amended): `_find_section` returns `None` exactly when no keyword
occurs in the text as a whole word, case-insensitively.  When it returns a
section, some keyword — the first in list order that occurs, all keywords
before it occurring nowhere — occurs at a leftmost position `j`, and the
section is the text following that occurrence, cut at the first
section-boundary match of `end_pattern` anywhere in the remainder, however
far away; only when `end_pattern` matches nowhere at all in the remainder is
the section truncated to 2000 characters. -/
theorem C7_amended_section_locator (text : Str) (keywords : List Str) :
    (EnhancedParser.find_section text keywords = none ↔
      ∀ kw ∈ keywords, ¬ wholeWordOccurs kw text) ∧
    (∀ s, EnhancedParser.find_section text keywords = some s →
      ∃ pre kw post, keywords = pre ++ kw :: post ∧
        (∀ kw' ∈ pre, ¬ wholeWordOccurs kw' text) ∧ kw ≠ [] ∧
        ∃ j, occursAt kw text j ∧ (∀ m < j, ¬ occursAt kw text m) ∧
          (reSearch EnhancedParser.end_pattern (text.drop (j + kw.length)) = none →
            s = (text.drop (j + kw.length)).take 2000) ∧
          (∀ e en, reSearch EnhancedParser.end_pattern
              (text.drop (j + kw.length)) = some (e, en) →
            s = (text.drop (j + kw.length)).take e)) := by
  rw [find_section_eq]
  by_cases htext : text = []
  · subst htext
    have hcond : ([] : Str).isEmpty = true := rfl
    rw [if_pos hcond]
    constructor
    · simp only [true_iff]
      intro kw _
      exact wholeWord_not_in_nil kw
    · intro s hs
      exact Option.noConfusion hs
  · rw [if_neg (by simpa [List.isEmpty_iff] using htext)]
    constructor
    · rw [List.findSome?_eq_none_iff]
      constructor
      · intro H kw hkw
        exact (sectionForKw_none_iff text kw).mp (H kw hkw)
      · intro H kw hkw
        exact (sectionForKw_none_iff text kw).mpr (H kw hkw)
    · intro s hs
      obtain ⟨pre, kw, post, hsplit, hf, hpre⟩ := findSome?_split keywords s hs
      obtain ⟨hkw, j, hocc, hmin, hnone, hsome⟩ := sectionForKw_some text kw s hf
      exact ⟨pre, kw, post, hsplit, fun kw' hkw' =>
        (sectionForKw_none_iff text kw').mp (hpre kw' hkw'), hkw,
        j, hocc, hmin, hnone, hsome⟩

/-- Witness for C7 (amended): on `"skills: python"` with keyword `"skills"`
the locator returns `": python"`, and the amended theorem instantiates to
the keyword occurring first at position 0 with no boundary in the rest. -/
theorem C7_amended_witness :
    ∃ pre kw post, [strL "skills"] = pre ++ kw :: post ∧
      (∀ kw' ∈ pre, ¬ wholeWordOccurs kw' (strL "skills: python")) ∧ kw ≠ [] ∧
      ∃ j, occursAt kw (strL "skills: python") j ∧
        (∀ m < j, ¬ occursAt kw (strL "skills: python") m) ∧
        (reSearch EnhancedParser.end_pattern
            ((strL "skills: python").drop (j + kw.length)) = none →
          strL ": python" =
            ((strL "skills: python").drop (j + kw.length)).take 2000) ∧
        (∀ e en, reSearch EnhancedParser.end_pattern
            ((strL "skills: python").drop (j + kw.length)) = some (e, en) →
          strL ": python" =
            ((strL "skills: python").drop (j + kw.length)).take e) :=
  (C7_amended_section_locator (strL "skills: python") [strL "skills"]).2
    (strL ": python") (by decide)

/-- C7 counterexample: on a resume whose `skills` section body runs 2051
characters before the first section-header boundary, no boundary occurs
within the 2000 characters following the keyword, yet the returned section
is 2051 characters long — the claimed truncation to at most 2000 characters
does not happen, because the code searches for the boundary in the whole
remainder of the text, not in a 2000-character window. -/
theorem C7_counterexample_no_2000_window :
    reSearch EnhancedParser.end_pattern ((longSectionText.drop 6).take 2000) =
      none ∧
    ∃ s, EnhancedParser.find_section longSectionText [strL "skills"] = some s ∧
      2000 < s.length := by
  have h1 : reSearch (RE.cat [RE.wb, RE.litCI (strL "skills"), RE.wb])
      (pyLower longSectionText) = some (0, 6) := by decide
  have h2 : reSearch EnhancedParser.end_pattern (longSectionText.drop 6) =
      some (2051, 17) := by decide
  have hkw : sectionForKw longSectionText (strL "skills") =
      some ((longSectionText.drop 6).take 2051) := by
    unfold sectionForKw
    rw [if_neg (by decide)]
    rw [h1]
    dsimp only
    simp only [Nat.zero_add]
    rw [h2]
  refine ⟨by decide, (longSectionText.drop 6).take 2051, ?_, ?_⟩
  · rw [find_section_eq, if_neg (by decide), List.findSome?_cons, hkw]
  · have hlen : longSectionText.length = 2074 := by
      have hexp : longSectionText = strL "skills" ++
          (['\n'] ++ (List.replicate 2050 'a' ++ strL "\nABCDEFGHIJKLMNOP")) := rfl
      rw [hexp, List.length_append, List.length_append, List.length_append,
        List.length_replicate]
      norm_num [show (strL "skills").length = 6 from by decide,
        show (strL "\nABCDEFGHIJKLMNOP").length = 17 from by decide]
    rw [List.length_take, List.length_drop, hlen]
    norm_num
